import Mathlib

/-!
# Verification of the n8n master pipeline orchestrator

Shallow embedding of `src/master_orchestrator.py`: the JSON value model and
compact serializer (Python's `json.dumps(..., separators=(',', ':'),
ensure_ascii=False)`), the retry classifier `is_transient_result`, the state
codec `read_state_from_description` / `write_state_to_description`, the
normalizer `normalize_workflow_result`, the fingerprint `input_hash_for_pt`
(SHA-256), and the per-entity orchestration loop of `main`.
-/

set_option maxRecDepth 4096

/-! ## JSON values

Model of the Python values handled by the orchestrator: `None`, booleans,
integers, strings, lists and dicts (association lists in insertion order,
as Python dicts preserve insertion order).  Floating point payloads never
occur in the orchestrator's own state, so numerals are integers here. -/

inductive Json where
  | null : Json
  | bool (b : Bool) : Json
  | num (n : Int) : Json
  | str (s : String) : Json
  | arr (elems : List Json) : Json
  | obj (fields : List (String × Json)) : Json

/-- Structural-induction principle for `Json` exposing membership in the
nested lists (the auto-generated recursor is awkward for nested inductives). -/
theorem Json.indOn {motive : Json → Prop}
    (hnull : motive .null)
    (hbool : ∀ b, motive (.bool b))
    (hnum : ∀ n, motive (.num n))
    (hstr : ∀ s, motive (.str s))
    (harr : ∀ es, (∀ j ∈ es, motive j) → motive (.arr es))
    (hobj : ∀ ms, (∀ kv ∈ ms, motive kv.2) → motive (.obj ms)) :
    ∀ j, motive j :=
  Json.rec (motive_1 := motive)
    (motive_2 := fun es => ∀ x ∈ es, motive x)
    (motive_3 := fun ms => ∀ kv ∈ ms, motive kv.2)
    (motive_4 := fun kv => motive kv.2)
    hnull hbool hnum hstr harr hobj
    (fun x h => absurd h (List.not_mem_nil x))
    (fun head _tail ihh iht x hx => by
      rcases List.mem_cons.mp hx with h | h
      · exact h ▸ ihh
      · exact iht x h)
    (fun kv h => absurd h (List.not_mem_nil kv))
    (fun head _tail ihh iht kv hkv => by
      rcases List.mem_cons.mp hkv with h | h
      · exact h ▸ ihh
      · exact iht kv h)
    (fun _fst _snd ih => ih)

mutual
def Json.beqFn : Json → Json → Bool
  | .null, .null => true
  | .bool a, .bool b => a == b
  | .num a, .num b => a == b
  | .str a, .str b => a == b
  | .arr a, .arr b => Json.beqList a b
  | .obj a, .obj b => Json.beqObj a b
  | _, _ => false

def Json.beqList : List Json → List Json → Bool
  | [], [] => true
  | a :: as, b :: bs => Json.beqFn a b && Json.beqList as bs
  | _, _ => false

def Json.beqObj : List (String × Json) → List (String × Json) → Bool
  | [], [] => true
  | (k, v) :: as, (l, w) :: bs => k == l && Json.beqFn v w && Json.beqObj as bs
  | _, _ => false
end

theorem Json.beqFn_refl : ∀ j : Json, Json.beqFn j j = true := by
  intro j
  induction j using Json.indOn with
  | hnull => rfl
  | hbool b => simp [Json.beqFn]
  | hnum n => simp [Json.beqFn]
  | hstr s => simp [Json.beqFn]
  | harr es ih =>
      simp only [Json.beqFn]
      induction es with
      | nil => rfl
      | cons a as iha =>
          simp only [Json.beqList, Bool.and_eq_true]
          exact ⟨ih a (by simp), iha (fun j h => ih j (by simp [h]))⟩
  | hobj ms ih =>
      simp only [Json.beqFn]
      induction ms with
      | nil => rfl
      | cons a as iha =>
          obtain ⟨k, v⟩ := a
          simp only [Json.beqObj, Bool.and_eq_true, beq_self_eq_true, true_and]
          exact ⟨ih (k, v) (by simp), iha (fun kv h => ih kv (by simp [h]))⟩

theorem Json.eq_of_beqFn : ∀ a b : Json, Json.beqFn a b = true → a = b := by
  intro a
  induction a using Json.indOn with
  | hnull => intro b h; cases b <;> simp_all [Json.beqFn]
  | hbool x => intro b h; cases b <;> simp_all [Json.beqFn]
  | hnum x => intro b h; cases b <;> simp_all [Json.beqFn]
  | hstr x => intro b h; cases b <;> simp_all [Json.beqFn]
  | harr es ih =>
      intro b h
      cases b with
      | arr fs =>
          congr 1
          induction es generalizing fs with
          | nil => cases fs with
            | nil => rfl
            | cons f fs => simp [Json.beqFn, Json.beqList] at h
          | cons e es ihe =>
              cases fs with
              | nil => simp [Json.beqFn, Json.beqList] at h
              | cons f fs =>
                  simp only [Json.beqFn, Json.beqList, Bool.and_eq_true] at h
                  have h1 := ih e (by simp) f h.1
                  have h2 := ihe (fun j hj => ih j (by simp [hj])) fs
                    (by simpa [Json.beqFn] using h.2)
                  simp [h1, h2]
      | null | bool _ | num _ | str _ | obj _ => simp [Json.beqFn] at h
  | hobj ms ih =>
      intro b h
      cases b with
      | obj ns =>
          congr 1
          induction ms generalizing ns with
          | nil => cases ns with
            | nil => rfl
            | cons n ns => simp [Json.beqFn, Json.beqObj] at h
          | cons m ms ihm =>
              cases ns with
              | nil =>
                  obtain ⟨k, v⟩ := m
                  simp [Json.beqFn, Json.beqObj] at h
              | cons n ns =>
                  obtain ⟨k, v⟩ := m
                  obtain ⟨l, w⟩ := n
                  simp only [Json.beqFn, Json.beqObj, Bool.and_eq_true] at h
                  have hk : k = l := by simpa using h.1.1
                  have hv : v = w := ih (k, v) (by simp) w h.1.2
                  have hs := ihm (fun kv hkv => ih kv (by simp [hkv])) ns
                    (by simpa [Json.beqFn] using h.2)
                  simp [hk, hv, hs]
      | null | bool _ | num _ | str _ | arr _ => simp [Json.beqFn] at h

instance : DecidableEq Json := fun a b =>
  if h : Json.beqFn a b = true then
    isTrue (Json.eq_of_beqFn a b h)
  else
    isFalse (fun e => h (e ▸ Json.beqFn_refl a))

/-! ## Compact JSON serialization

Model of `json.dumps(value, ensure_ascii=False, separators=(',', ':'))`:
no whitespace, `"` / `\` / control characters escaped (short escapes for
the five classic control characters, `\u00XX` otherwise), all other
characters emitted verbatim. -/

def digitChar (d : Nat) : Char := Char.ofNat (48 + d)

def hexChar (d : Nat) : Char := if d < 10 then Char.ofNat (48 + d) else Char.ofNat (87 + d)

/-- Decimal digits worker: structural on a fuel argument so that the kernel
can evaluate it (`fuel ≥ m` always suffices since `m / 10 < m`). -/
def natCharsGo : Nat → Nat → List Char
  | 0, m => [digitChar m]
  | fuel + 1, m =>
    if m < 10 then [digitChar m] else natCharsGo fuel (m / 10) ++ [digitChar (m % 10)]

/-- Decimal digits of a natural number, most significant first. -/
def natChars (m : Nat) : List Char := natCharsGo m m

/-- Decimal rendering of a Python integer (`repr` of an `int`). -/
def intChars (n : Int) : List Char :=
  if n < 0 then '-' :: natChars n.natAbs else natChars n.toNat

/-- JSON escape of one character, per Python's `json` encoder with
`ensure_ascii=False`. -/
def escChar (c : Char) : List Char :=
  if c = '"' then ['\\', '"']
  else if c = '\\' then ['\\', '\\']
  else if c.toNat < 32 then
    if c = '\x08' then ['\\', 'b']
    else if c = '\t' then ['\\', 't']
    else if c = '\n' then ['\\', 'n']
    else if c = '\x0c' then ['\\', 'f']
    else if c = '\r' then ['\\', 'r']
    else ['\\', 'u', '0', '0', hexChar (c.toNat / 16), hexChar (c.toNat % 16)]
  else [c]

def escChars : List Char → List Char
  | [] => []
  | c :: cs => escChar c ++ escChars cs

/-- A serialized JSON string literal, quotes included. -/
def strChars (s : String) : List Char := '"' :: (escChars s.toList ++ ['"'])

/-- The serialized keyword tokens. -/
def nullTok : List Char := ['n', 'u', 'l', 'l']

def trueTok : List Char := ['t', 'r', 'u', 'e']

def falseTok : List Char := ['f', 'a', 'l', 's', 'e']

mutual
/-- Characters of the compact serialization of a JSON value. -/
def dumpsChars : Json → List Char
  | .null => nullTok
  | .bool true => trueTok
  | .bool false => falseTok
  | .num n => intChars n
  | .str s => strChars s
  | .arr es => '[' :: (dumpsList es ++ [']'])
  | .obj ms => '{' :: (dumpsObj ms ++ ['}'])

/-- Comma-separated serializations of the array elements. -/
def dumpsList : List Json → List Char
  | [] => []
  | [e] => dumpsChars e
  | e :: f :: fs => dumpsChars e ++ ',' :: dumpsList (f :: fs)

/-- Comma-separated `"key":value` serializations of the member list. -/
def dumpsObj : List (String × Json) → List Char
  | [] => []
  | [(k, v)] => strChars k ++ ':' :: dumpsChars v
  | (k, v) :: m :: ms => (strChars k ++ ':' :: dumpsChars v) ++ ',' :: dumpsObj (m :: ms)
end

/-- `json.dumps(j, ensure_ascii=False, separators=(',', ':'))` as a string. -/
def dumps (j : Json) : String := String.mk (dumpsChars j)

/-! ## Retry Classifier (`is_transient_result`, lines 150-159)

`is_transient_exception` (lines 141-147) checks the dynamic type of a raised
transport exception; in the embedding an exception outcome directly carries
that verdict as a boolean. -/

/-- Canonical step result as consumed by the orchestration loop.  Only the
fields the control flow reads are carried: `ok` (arbitrary JSON value tested
for Python truthiness), `status`, and the `errors` list. -/
structure StepResult where
  ok : Json
  status : String
  errors : List Json
deriving DecidableEq

/-- Python truthiness of a JSON value (`bool(x)`). -/
def pyTruthy : Json → Bool
  | .null => false
  | .bool b => b
  | .num n => n != 0
  | .str s => s != ""
  | .arr es => !es.isEmpty
  | .obj ms => !ms.isEmpty

/-- ASCII lowercasing of a character list (`str.lower()`; the markers and
keywords searched for are all ASCII). -/
def lowerChars (cs : List Char) : List Char := cs.map Char.toLower

/-- Whether `pat` occurs as a contiguous run inside `hay` (Python `in`). -/
def containsSub (hay pat : List Char) : Bool :=
  pat.isPrefixOf hay ||
    match hay with
    | [] => false
    | _ :: t => containsSub t pat

def TRANSIENT_KEYWORDS : List String :=
  ["timeout", "tempor", "rate", "429", "5xx", "503", "502", "504", "connection", "unavailable"]

/-- `json.dumps(err, ensure_ascii=False).lower()` for one error descriptor. -/
def errText (e : Json) : List Char := lowerChars (dumpsChars e)

/-- The per-descriptor fatal test: a 401/403 code or the word
"invalid"/"validation" in the serialized text. -/
def authMarked (e : Json) : Bool :=
  containsSub (errText e) "401".toList || containsSub (errText e) "403".toList ||
    containsSub (errText e) "invalid".toList || containsSub (errText e) "validation".toList

/-- The per-descriptor transient test: any `TRANSIENT_KEYWORDS` member in the
serialized text. -/
def transientMarked (e : Json) : Bool :=
  TRANSIENT_KEYWORDS.any fun kw => containsSub (errText e) kw.toList

/-- The `for err in step_result.get("errors", [])` loop of
`is_transient_result`: the first descriptor whose serialized text bears an
authentication marker returns `False`, otherwise the first bearing a
transient keyword returns `True`; a list with neither yields `False`. -/
def scanErrors : List Json → Bool
  | [] => false
  | e :: rest =>
    if authMarked e then false
    else if transientMarked e then true
    else scanErrors rest

/-- `is_transient_result` (lines 150-159). -/
def is_transient_result (r : StepResult) : Bool :=
  if lowerChars r.status.toList = "timeout".toList then true
  else scanErrors r.errors

/-! ## Stage sequencing and the per-entity orchestration loop

Embedding of `main` (lines 231-371) for a single product type.  Network
effects are replaced by explicit data: the entity's fingerprint is a
parameter `h` (main computes it with `input_hash_for_pt`), stage
invocations are an oracle `out stage attempt` yielding either a normalized
step result or a raised transport exception (tagged with its
`is_transient_exception` verdict), `time.sleep` durations are collected in
a list, `now_iso()` is a parameter `now`, and every
`patch_product_type_state` call is recorded in a `persisted` list. -/

def STAGES : List String := ["WF_A", "WF_B", "WF_C", "WF_D"]

def FINAL_STAGE : String := STAGES.getLastD ""

def SUCCESS_STATUSES : List String :=
  ["success", "skipped", "no_changes", "already_running", "skipped_recent"]

/-- The success test applied to a step result (lines 316 and 325):
`bool(step_result.get("ok")) and step_result.get("status") in SUCCESS_STATUSES`. -/
def stepSucceeds (r : StepResult) : Bool :=
  pyTruthy r.ok && SUCCESS_STATUSES.contains r.status

/-- `next_stage` (lines 162-171); the argument is the `current_stage` entry of
the state dict handed to it. -/
def next_stage (current : Option String) : Option String :=
  match current with
  | none => some (STAGES.headD "")
  | some c =>
    if c = "" then some (STAGES.headD "")
    else if ¬ STAGES.contains c then some (STAGES.headD "")
    else
      let idx := STAGES.indexOf c
      if idx ≥ STAGES.length - 1 then none
      else some (STAGES.getD (idx + 1) "")

/-- The persisted `PipelineState`, with the fields typed as the orchestrator
itself maintains them (the dict also passes through the JSON codec; the
`setdefault` calls of lines 236-241 guarantee every field below exists).
`last_error` keeps its JSON shape because the two writers of the field use
different layouts. -/
structure PState where
  current_stage : Option String
  last_success_stage : Option String
  last_run_at : Option String
  last_error : Option Json
  retry_count : Nat
  pipeline_status : String
  input_hash : Option String
  last_success_input_hash : Option String
deriving DecidableEq

/-- The state of an entity never processed before: all `setdefault` values of
lines 236-241 applied to an empty decoded dict. -/
def initialState : PState :=
  ⟨none, none, none, none, 0, "idle", none, none⟩

/-- Python truthiness of an optional string field (`None` and `""` falsy). -/
def truthyOptStr : Option String → Bool
  | none => false
  | some s => s != ""

/-- Python truthiness of the optional `last_error` JSON value. -/
def truthyErr : Option Json → Bool
  | none => false
  | some j => pyTruthy j

/-- Outcome of one `execute_workflow` call: either a raised exception
(tagged with the `is_transient_exception` verdict on its type) or a
normalized step result. -/
inductive ExecOutcome where
  | raises (transient : Bool)
  | returns (r : StepResult)
deriving DecidableEq

/-- How the retry loop of lines 296-322 terminates. -/
inductive RetryExit where
  | raised
  | final (r : StepResult) (attempt : Nat) (transient : Bool)
deriving DecidableEq

structure RetryOut where
  exit : RetryExit
  rc : Nat
  ninv : Nat
  delays : List ℚ
deriving DecidableEq

/-- The inner retry loop (lines 294-322) starting at the given attempt
counter.  `rc` is the in-memory `state["retry_count"]`, re-assigned to the
attempt counter after every retry; `ninv` counts `execute_workflow`
invocations; `delays` lists the `time.sleep` durations in order. -/
def retryLoopGo (base : ℚ) (out : Nat → ExecOutcome) (maxR : Nat) :
    Nat → Nat → Nat → RetryOut
  | 0, rc, _ => ⟨.raised, rc, 0, []⟩
  | fuel + 1, rc, attempt =>
    match out attempt with
    | .raises t =>
      if t = true ∧ attempt < maxR then
        let d := base * 2 ^ attempt
        let o := retryLoopGo base out maxR fuel (attempt + 1) (attempt + 1)
        ⟨o.exit, o.rc, o.ninv + 1, d :: o.delays⟩
      else ⟨.raised, rc, 1, []⟩
    | .returns r =>
      let transient := is_transient_result r
      if (¬ stepSucceeds r = true) ∧ transient = true ∧ attempt < maxR then
        let d := base * 2 ^ attempt
        let o := retryLoopGo base out maxR fuel (attempt + 1) (attempt + 1)
        ⟨o.exit, o.rc, o.ninv + 1, d :: o.delays⟩
      else ⟨.final r attempt transient, rc, 1, []⟩

/-- The loop retries only while `attempt < maxR`, so `maxR + 1 - attempt`
fuel is exact; the zero-fuel branch is unreachable. -/
def retryLoop (base : ℚ) (out : Nat → ExecOutcome) (maxR : Nat) (rc : Nat)
    (attempt : Nat) : RetryOut :=
  retryLoopGo base out maxR (maxR + 1 - attempt) rc attempt

/-- CLI/environment configuration of one orchestrator run: retry bound,
backoff base, and the four stage workflow ids (lines 193-203). -/
structure RunConfig where
  maxRetries : Nat
  backoff : ℚ
  wfA : String
  wfB : String
  wfC : String
  wfD : String

/-- The `stage_to_id` dict (lines 198-203). -/
def stageToId (cfg : RunConfig) : String → Option String
  | "WF_A" => some cfg.wfA
  | "WF_B" => some cfg.wfB
  | "WF_C" => some cfg.wfC
  | "WF_D" => some cfg.wfD
  | _ => none

/-- Result of the `while True` stage loop (lines 277-361) plus bookkeeping:
item status, in-memory state, mid-loop persists (line 349), the trace of
stage invocations `(stage, attempt)`, sleep delays, and whether an
exception escaped (line 313's bare `raise`). -/
structure LoopOut where
  itemStatus : String
  state : PState
  persisted : List PState
  trace : List (String × Nat)
  delays : List ℚ
  raised : Bool

/-- Lines 278-280: the stage to run now (`state.get("current_stage")`,
falling back to `STAGES[0]` when missing or empty). -/
def entryStage (st : PState) : String :=
  match st.current_stage with
  | none => STAGES.headD ""
  | some c => if c = "" then STAGES.headD "" else c

/-- The stage loop (lines 277-361).  The loop visits each stage at most once
per run (success advances, failure breaks), so `STAGES.length + 1` fuel is
always sufficient; the fuel-exhaustion branch is unreachable from
`runEntity` and returns a distinguished marker. -/
def stageLoop (cfg : RunConfig) (h : String) (out : String → Nat → ExecOutcome)
    (now : String) : Nat → PState → LoopOut
  | 0, st => ⟨"model_fuel_exhausted", st, [], [], [], false⟩
  | fuel + 1, st =>
    let stage := entryStage st
    let wf := stageToId cfg stage
    if ¬ truthyOptStr wf = true then
      let e := Json.obj [("code", Json.str "workflow_id_not_set"), ("stage", Json.str stage)]
      let st' := { st with last_error := some e }
      ⟨"error", st', [], [], [], false⟩
    else
      let ro := retryLoop cfg.backoff (out stage) cfg.maxRetries st.retry_count 0
      let trace0 := (List.range ro.ninv).map fun k => (stage, k)
      match ro.exit with
      | .raised => ⟨"error", { st with retry_count := ro.rc }, [], trace0, ro.delays, true⟩
      | .final r attempt transient =>
        let step_status := r.status
        let step_ok := stepSucceeds r
        let stA := { st with retry_count := ro.rc, last_run_at := some now }
        if step_ok then
          let stB := { stA with last_success_stage := some stage, last_error := none, retry_count := 0 }
          match next_stage (some stage) with
          | none =>
            let stT := { stB with current_stage := none, last_success_input_hash := some h, pipeline_status := "success" }
            ⟨"success", stT, [], trace0, ro.delays, false⟩
          | some nxt =>
            let stC := { stB with current_stage := some nxt }
            let rest := stageLoop cfg h out now fuel stC
            ⟨rest.itemStatus, rest.state, stC :: rest.persisted, trace0 ++ rest.trace,
              ro.delays ++ rest.delays, rest.raised⟩
        else
          let e := Json.obj [("stage", Json.str stage), ("status", Json.str step_status), ("errors", Json.arr r.errors)]
          let stB := { stA with last_error := some e, retry_count := attempt + 1, current_stage := some stage }
          let pstat := if ¬ transient = true ∨ stB.retry_count ≥ cfg.maxRetries
            then "failed" else "error"
          ⟨if pstat = "failed" then "failed" else "error",
            { stB with pipeline_status := pstat }, [], trace0, ro.delays, false⟩

/-- Outcome of processing one entity (one iteration of the loop over
`ids`, lines 231-371). -/
structure EntityOutcome where
  itemStatus : String
  finalState : PState
  persisted : List PState
  trace : List (String × Nat)
  delays : List ℚ
  raised : Bool

/-- The full-skip test of lines 245-250. -/
def skipCheck (st : PState) (h : String) : Bool :=
  truthyOptStr st.last_success_input_hash
    && decide (st.last_success_input_hash = some h)
    && decide (st.last_success_stage = some FINAL_STAGE)
    && !truthyErr st.last_error

/-- The fingerprint-change reset of lines 259-263. -/
def applyReset (st : PState) (h : String) : PState :=
  if st.input_hash ≠ some h then
    { st with current_stage := none, last_success_stage := none, last_error := none, retry_count := 0 }
  else st

/-- The durable-stop test of line 265. -/
def stopCheck (st : PState) (h : String) (maxR : Nat) : Bool :=
  truthyErr st.last_error && decide (st.input_hash = some h)
    && decide (st.retry_count ≥ maxR)

/-- Processing of one entity whose decoded, defaulted state is `st0` and
whose fingerprint (`input_hash_for_pt`) is `h`: lines 245-363, plus the
outer exception handler of lines 364-366 for an escaped stage exception. -/
def runEntity (cfg : RunConfig) (h : String) (st0 : PState)
    (out : String → Nat → ExecOutcome) (now : String) : EntityOutcome :=
  if skipCheck st0 h then
    let st1 := { st0 with input_hash := some h, pipeline_status := "skipped_no_change", last_run_at := some now }
    ⟨"skipped_no_change", st1, [st1], [], [], false⟩
  else
    let st1 := applyReset st0 h
    if stopCheck st1 h cfg.maxRetries then
      let st2 := { st1 with pipeline_status := "failed", last_run_at := some now }
      ⟨"failed", st2, [st2], [], [], false⟩
    else
      let st2 := { st1 with input_hash := some h, pipeline_status := "running" }
      let lo := stageLoop cfg h out now (STAGES.length + 1) st2
      if lo.raised then
        ⟨"error", lo.state, lo.persisted, lo.trace, lo.delays, true⟩
      else
        ⟨lo.itemStatus, lo.state, lo.persisted ++ [lo.state], lo.trace, lo.delays, false⟩

/-! ## StepResult Normalizer (`normalize_workflow_result`, lines 83-104) -/

/-- `d.get(k)` on a JSON dict (`none` for a missing key or a non-dict). -/
def jget (j : Json) (k : String) : Option Json :=
  match j with
  | .obj ms => (ms.find? fun kv => kv.1 == k).map (·.2)
  | _ => none

/-- `k in d` for an association list. -/
def hasKey (ms : List (String × Json)) (k : String) : Bool :=
  ms.any fun kv => kv.1 == k

/-- `d.setdefault(k, v)`: a Python dict appends a missing key at the end. -/
def setdefault (ms : List (String × Json)) (k : String) (v : Json) :
    List (String × Json) :=
  if hasKey ms k then ms else ms ++ [(k, v)]

/-- `d[k] = v` for a key already present (keeps the key's position). -/
def objAssign (j : Json) (k : String) (v : Json) : Json :=
  match j with
  | .obj ms => .obj (ms.map fun kv => if kv.1 == k then (kv.1, v) else kv)
  | _ => j

/-- `default_result()` (lines 26-38); `ts` stands for the `now_iso()` value. -/
def default_result (ts : String) : Json :=
  .obj [("ok", .bool false), ("stage", .str "WF_MASTER"), ("product_type_id", .null),
    ("product_id", .null), ("status", .str "error"), ("metrics", .obj []),
    ("errors", .arr [.obj [("code", .str "invalid_workflow_response")]]),
    ("warnings", .arr []),
    ("timestamps", .obj [("started_at", .str ts), ("finished_at", .str ts)])]

/-- The candidate-selection of lines 85-91: start from `raw`, move to
`data[0]["json"]` when that path holds a dict, then to `raw["json"]` when
that holds a dict (the later check wins). -/
def candidateOf (raw : Json) : Json :=
  let c1 : Json :=
    match jget raw "data" with
    | some (.arr (first :: _)) =>
      (match first with
       | .obj _ =>
         (match jget first "json" with
          | some (.obj jms) => .obj jms
          | _ => raw)
       | _ => raw)
    | _ => raw
  match jget raw "json" with
  | some (.obj jms) => .obj jms
  | _ => c1

/-- `normalize_workflow_result(raw, fallback_stage, pt_id)` (lines 83-104);
`ts` stands for the `now_iso()` timestamps. -/
def normalize_workflow_result (raw : Json) (fallback : String) (ptId : Int)
    (ts : String) : Json :=
  let bad : Json :=
    objAssign (objAssign (default_result ts) "stage" (.str fallback))
      "product_type_id" (.num ptId)
  match raw with
  | .obj _ =>
    match candidateOf raw with
    | .obj cms =>
      if hasKey cms "ok" && hasKey cms "status" then
        let m1 := setdefault cms "stage" (.str fallback)
        let m2 := setdefault m1 "product_type_id" (.num ptId)
        let m3 := setdefault m2 "metrics" (.obj [])
        let m4 := setdefault m3 "errors" (.arr [])
        let m5 := setdefault m4 "warnings" (.arr [])
        let m6 := setdefault m5 "timestamps"
          (.obj [("started_at", .str ts), ("finished_at", .str ts)])
        let m7 := setdefault m6 "product_id" .null
        .obj m7
      else bad
    | _ => bad
  | _ => bad

/-! ## Input Change Detector (`input_hash_for_pt`, lines 174-179)

`hashlib.sha256(json.dumps(marker, sort_keys=True, ensure_ascii=False)
.encode("utf-8")).hexdigest()`.  `json.dumps` is called here with its
default separators `", "` / `": "`, so a second, spaced serializer models
that call; SHA-256 is implemented in full. -/

mutual
/-- `json.dumps(j, ensure_ascii=False)` with default (spaced) separators. -/
def dumpsSpChars : Json → List Char
  | .null => nullTok
  | .bool true => trueTok
  | .bool false => falseTok
  | .num n => intChars n
  | .str s => strChars s
  | .arr es => '[' :: (dumpsSpList es ++ [']'])
  | .obj ms => '{' :: (dumpsSpObj ms ++ ['}'])

def dumpsSpList : List Json → List Char
  | [] => []
  | [e] => dumpsSpChars e
  | e :: f :: fs => dumpsSpChars e ++ ',' :: ' ' :: dumpsSpList (f :: fs)

def dumpsSpObj : List (String × Json) → List Char
  | [] => []
  | [(k, v)] => strChars k ++ ':' :: ' ' :: dumpsSpChars v
  | (k, v) :: m :: ms =>
    (strChars k ++ ':' :: ' ' :: dumpsSpChars v) ++ ',' :: ' ' :: dumpsSpObj (m :: ms)
end

/-- Lexicographic code-point comparison (Python `str.__lt__`). -/
def charListLt : List Char → List Char → Bool
  | [], [] => false
  | [], _ :: _ => true
  | _ :: _, [] => false
  | a :: as, b :: bs =>
    if a.toNat < b.toNat then true
    else if b.toNat < a.toNat then false
    else charListLt as bs

def keyLt (a b : String) : Bool := charListLt a.toList b.toList

/-- Ascending insertion by key (Python's `sorted` on code points). -/
def insertByKey (kv : String × Json) : List (String × Json) → List (String × Json)
  | [] => [kv]
  | m :: ms => if keyLt kv.1 m.1 then kv :: m :: ms else m :: insertByKey kv ms

def sortFields : List (String × Json) → List (String × Json)
  | [] => []
  | m :: ms => insertByKey m (sortFields ms)

mutual
/-- The recursive key sorting performed by `json.dumps(..., sort_keys=True)`. -/
def sortKeysJson : Json → Json
  | .arr es => .arr (sortKeysList es)
  | .obj ms => .obj (sortFields (sortKeysMembers ms))
  | j => j

def sortKeysList : List Json → List Json
  | [] => []
  | e :: es => sortKeysJson e :: sortKeysList es

def sortKeysMembers : List (String × Json) → List (String × Json)
  | [] => []
  | (k, v) :: ms => (k, sortKeysJson v) :: sortKeysMembers ms
end

/-- UTF-8 encoding of one character (`str.encode("utf-8")`). -/
def utf8Bytes (c : Char) : List Nat :=
  let n := c.toNat
  if n < 128 then [n]
  else if n < 2048 then [192 + n / 64, 128 + n % 64]
  else if n < 65536 then [224 + n / 4096, 128 + (n / 64) % 64, 128 + n % 64]
  else [240 + n / 262144, 128 + (n / 4096) % 64, 128 + (n / 64) % 64, 128 + n % 64]

def strBytes (s : String) : List Nat := (s.toList.map utf8Bytes).flatten

/-! ### SHA-256 (`hashlib.sha256`) -/

def u32 (x : Nat) : Nat := x % 4294967296

def rotr32 (x n : Nat) : Nat := u32 ((x >>> n) ||| (x <<< (32 - n)))

def shaCh (e f g : Nat) : Nat := (e &&& f) ^^^ ((e ^^^ 4294967295) &&& g)

def shaMaj (a b c : Nat) : Nat := (a &&& b) ^^^ (a &&& c) ^^^ (b &&& c)

def bigSigma0 (x : Nat) : Nat := rotr32 x 2 ^^^ rotr32 x 13 ^^^ rotr32 x 22

def bigSigma1 (x : Nat) : Nat := rotr32 x 6 ^^^ rotr32 x 11 ^^^ rotr32 x 25

def smallSigma0 (x : Nat) : Nat := rotr32 x 7 ^^^ rotr32 x 18 ^^^ (x >>> 3)

def smallSigma1 (x : Nat) : Nat := rotr32 x 17 ^^^ rotr32 x 19 ^^^ (x >>> 10)

def shaK : List Nat :=
  [1116352408, 1899447441, 3049323471, 3921009573, 961987163, 1508970993,
   2453635748, 2870763221, 3624381080, 310598401, 607225278, 1426881987,
   1925078388, 2162078206, 2614888103, 3248222580, 3835390401, 4022224774,
   264347078, 604807628, 770255983, 1249150122, 1555081692, 1996064986,
   2554220882, 2821834349, 2952996808, 3210313671, 3336571891, 3584528711,
   113926993, 338241895, 666307205, 773529912, 1294757372, 1396182291,
   1695183700, 1986661051, 2177026350, 2456956037, 2730485921, 2820302411,
   3259730800, 3345764771, 3516065817, 3600352804, 4094571909, 275423344,
   430227734, 506948616, 659060556, 883997877, 958139571, 1322822218,
   1537002063, 1747873779, 1955562222, 2024104815, 2227730452, 2361852424,
   2428436474, 2756734187, 3204031479, 3329325298]

def shaH0 : List Nat :=
  [1779033703, 3144134277, 1013904242, 2773480762, 1359893119, 2600822924,
   528734635, 1541459225]

/-- Big-endian bytes of `x`, `k` bytes wide. -/
def beBytes : Nat → Nat → List Nat
  | 0, _ => []
  | k + 1, x => beBytes k (x / 256) ++ [x % 256]

/-- SHA-256 padding: `0x80`, zeros to 56 mod 64, 8-byte big-endian bit length. -/
def padMsg (msg : List Nat) : List Nat :=
  let L := msg.length
  let zeros := (64 + 55 - L % 64) % 64
  msg ++ 128 :: (List.replicate zeros 0 ++ beBytes 8 (8 * L))

def bytesToWords : List Nat → List Nat
  | b0 :: b1 :: b2 :: b3 :: rest =>
    (((b0 * 256 + b1) * 256 + b2) * 256 + b3) :: bytesToWords rest
  | _ => []

/-- Extend the 16-word schedule by `k` further words. -/
def extendW : List Nat → Nat → List Nat
  | w, 0 => w
  | w, k + 1 =>
    let t := u32 (smallSigma1 (w.getD (w.length - 2) 0) + w.getD (w.length - 7) 0 +
      smallSigma0 (w.getD (w.length - 15) 0) + w.getD (w.length - 16) 0)
    extendW (w ++ [t]) k

/-- The 64 compression rounds, driven by the schedule and round constants. -/
def shaRounds : List Nat → List Nat → List Nat → List Nat
  | wi :: ws, ki :: ks, [a, b, c, d, e, f, g, h] =>
    let t1 := u32 (h + bigSigma1 e + shaCh e f g + ki + wi)
    let t2 := u32 (bigSigma0 a + shaMaj a b c)
    shaRounds ws ks [u32 (t1 + t2), a, b, c, u32 (d + t1), e, f, g]
  | _, _, st => st

def processChunk (hv : List Nat) (chunk : List Nat) : List Nat :=
  let w := extendW (bytesToWords chunk) 48
  let st := shaRounds w shaK hv
  (hv.zip st).map fun xy => u32 (xy.1 + xy.2)

/-- Split into 64-byte chunks; structural on a fuel argument (`fuel ≥
length` suffices since every step consumes at least one byte). -/
def chunksGo : Nat → List Nat → List (List Nat)
  | 0, _ => []
  | fuel + 1, l =>
    match l with
    | [] => []
    | x :: xs => (x :: xs).take 64 :: chunksGo fuel ((x :: xs).drop 64)

def chunksOf64 (l : List Nat) : List (List Nat) := chunksGo l.length l

def sha256Words (msg : List Nat) : List Nat :=
  (chunksOf64 (padMsg msg)).foldl processChunk shaH0

def wordHex (w : Nat) : List Char :=
  [hexChar (w / 16 ^ 7 % 16), hexChar (w / 16 ^ 6 % 16), hexChar (w / 16 ^ 5 % 16),
   hexChar (w / 16 ^ 4 % 16), hexChar (w / 16 ^ 3 % 16), hexChar (w / 16 ^ 2 % 16),
   hexChar (w / 16 % 16), hexChar (w % 16)]

/-- `hashlib.sha256(bytes).hexdigest()`. -/
def sha256hex (msg : List Nat) : String :=
  String.mk ((sha256Words msg).map wordHex).flatten

/-- `a or b` on an optional attribute value (`None` and falsy values fall
through to `b`). -/
def pyOrJ (a : Option Json) (b : Json) : Json :=
  match a with
  | some v => if pyTruthy v then v else b
  | none => b

/-- `pt.get("name")` as serialized into the marker (a missing key is `None`). -/
def nameAttr (pt : Json) : Json := (jget pt "name").getD .null

/-- `pt.get("updated") or pt.get("updated_at") or ""` (line 177). -/
def updatedAttr (pt : Json) : Json :=
  pyOrJ (jget pt "updated") (pyOrJ (jget pt "updated_at") (.str ""))

/-- `input_hash_for_pt` (lines 174-179). -/
def input_hash_for_pt (pt : Json) : String :=
  let marker := Json.obj [("name", nameAttr pt), ("updated", updatedAttr pt)]
  sha256hex (strBytes (String.mk (dumpsSpChars (sortKeysJson marker))))

/-! ## State Codec (`read_state_from_description` /
`write_state_to_description`, lines 41-54)

`description.splitlines()`, `str.strip()` and `str.startswith` are modelled
character-exactly (including `\r\n` and the Unicode line terminators /
whitespace that Python recognises).  `json.loads` is modelled by a
recursive-descent parser for the whitespace-free documents the compact
serializer emits; on any other input both the model and `json.loads`
applied to such a payload yield a failure, which the source maps to `{}`. -/

/-- Line terminators recognised by `str.splitlines`. -/
def termCh (c : Char) : Bool :=
  decide (c.toNat = 10 ∨ c.toNat = 13 ∨ c.toNat = 11 ∨ c.toNat = 12 ∨ c.toNat = 28 ∨
    c.toNat = 29 ∨ c.toNat = 30 ∨ c.toNat = 133 ∨ c.toNat = 8232 ∨ c.toNat = 8233)

/-- Whitespace stripped by `str.strip()` (`str.isspace` characters). -/
def wsCh (c : Char) : Bool :=
  decide (c.toNat = 9 ∨ c.toNat = 10 ∨ c.toNat = 11 ∨ c.toNat = 12 ∨ c.toNat = 13 ∨
    c.toNat = 28 ∨ c.toNat = 29 ∨ c.toNat = 30 ∨ c.toNat = 31 ∨ c.toNat = 32 ∨
    c.toNat = 133 ∨ c.toNat = 160 ∨ c.toNat = 5760 ∨
    (8192 ≤ c.toNat ∧ c.toNat ≤ 8202) ∨ c.toNat = 8232 ∨ c.toNat = 8233 ∨
    c.toNat = 8239 ∨ c.toNat = 8287 ∨ c.toNat = 12288)

/-- `str.splitlines()`: split at every terminator (`\r\n` counting as one),
no trailing empty line. -/
def pySplitlinesL : List Char → List (List Char)
  | [] => []
  | '\r' :: '\n' :: rest => [] :: pySplitlinesL rest
  | c :: rest =>
    if termCh c then [] :: pySplitlinesL rest
    else
      match pySplitlinesL rest with
      | [] => [[c]]
      | l :: ls => (c :: l) :: ls

/-- `str.strip()`. -/
def stripL (cs : List Char) : List Char :=
  ((cs.dropWhile wsCh).reverse.dropWhile wsCh).reverse

/-- `"\n".join(lines)`. -/
def joinNL : List (List Char) → List Char
  | [] => []
  | [l] => l
  | l :: l2 :: ls => l ++ '\n' :: joinNL (l2 :: ls)

/-- `STATE_PREFIX = "autojp_state:"` (line 15). -/
def STATE_MARKER : List Char := "autojp_state:".toList

/-! ### A parser for the compact serializations (`json.loads`) -/

def isDigitCh (c : Char) : Bool := decide (48 ≤ c.toNat ∧ c.toNat ≤ 57)

def hexVal (c : Char) : Option Nat :=
  if 48 ≤ c.toNat ∧ c.toNat ≤ 57 then some (c.toNat - 48)
  else if 97 ≤ c.toNat ∧ c.toNat ≤ 102 then some (c.toNat - 87)
  else if 65 ≤ c.toNat ∧ c.toNat ≤ 70 then some (c.toNat - 55)
  else none

/-- Body of a JSON string literal after the opening quote; returns the
decoded characters and the text after the closing quote. -/
def parseStringBody : List Char → Option (List Char × List Char)
  | [] => none
  | c :: rest =>
    if c = '"' then some ([], rest)
    else if c = '\\' then
      match rest with
      | [] => none
      | e :: r2 =>
        if e = '"' then (parseStringBody r2).map fun sr => ('"' :: sr.1, sr.2)
        else if e = '\\' then (parseStringBody r2).map fun sr => ('\\' :: sr.1, sr.2)
        else if e = '/' then (parseStringBody r2).map fun sr => ('/' :: sr.1, sr.2)
        else if e = 'b' then (parseStringBody r2).map fun sr => ('\x08' :: sr.1, sr.2)
        else if e = 'f' then (parseStringBody r2).map fun sr => ('\x0c' :: sr.1, sr.2)
        else if e = 'n' then (parseStringBody r2).map fun sr => ('\n' :: sr.1, sr.2)
        else if e = 'r' then (parseStringBody r2).map fun sr => ('\r' :: sr.1, sr.2)
        else if e = 't' then (parseStringBody r2).map fun sr => ('\t' :: sr.1, sr.2)
        else if e = 'u' then
          match r2 with
          | h1 :: h2 :: h3 :: h4 :: r3 =>
            match hexVal h1, hexVal h2, hexVal h3, hexVal h4 with
            | some v1, some v2, some v3, some v4 =>
              (parseStringBody r3).map fun sr =>
                (Char.ofNat (((v1 * 16 + v2) * 16 + v3) * 16 + v4) :: sr.1, sr.2)
            | _, _, _, _ => none
          | _ => none
        else none
    else (parseStringBody rest).map fun sr => (c :: sr.1, sr.2)

def digitsVal (ds : List Char) : Nat := ds.foldl (fun a c => 10 * a + (c.toNat - 48)) 0

/-- A maximal run of decimal digits and its value. -/
def parseNatTok (cs : List Char) : Option (Nat × List Char) :=
  let ds := cs.takeWhile isDigitCh
  if ds.isEmpty then none else some (digitsVal ds, cs.drop ds.length)

def startsRB : List Char → Bool
  | [] => false
  | c :: _ => c = ']'

def startsCB : List Char → Bool
  | [] => false
  | c :: _ => c = '}'

mutual
/-- One JSON value; the fuel only bounds the bracket-nesting recursion and
any fuel at least `needFuel` of the value suffices. -/
def parseVal : Nat → List Char → Option (Json × List Char)
  | 0, _ => none
  | fuel + 1, cs =>
    match cs with
    | [] => none
    | c :: r =>
      if c = 'n' then
        match r with
        | 'u' :: 'l' :: 'l' :: r2 => some (.null, r2)
        | _ => none
      else if c = 't' then
        match r with
        | 'r' :: 'u' :: 'e' :: r2 => some (.bool true, r2)
        | _ => none
      else if c = 'f' then
        match r with
        | 'a' :: 'l' :: 's' :: 'e' :: r2 => some (.bool false, r2)
        | _ => none
      else if c = '"' then
        (parseStringBody r).map fun sr => (.str (String.mk sr.1), sr.2)
      else if c = '[' then
        if startsRB r then some (.arr [], r.tail)
        else (parseElems fuel r).map fun er => (.arr er.1, er.2)
      else if c = '{' then
        if startsCB r then some (.obj [], r.tail)
        else (parseMembers fuel r).map fun mr => (.obj mr.1, mr.2)
      else if c = '-' then
        (parseNatTok r).map fun nr => (.num (-(nr.1 : Int)), nr.2)
      else if isDigitCh c then
        (parseNatTok (c :: r)).map fun nr => (.num (nr.1 : Int), nr.2)
      else none

/-- Elements of a nonempty array after the opening bracket. -/
def parseElems : Nat → List Char → Option (List Json × List Char)
  | 0, _ => none
  | fuel + 1, cs =>
    match parseVal fuel cs with
    | none => none
    | some (v, r) =>
      match r with
      | ',' :: r2 => (parseElems fuel r2).map fun er => (v :: er.1, er.2)
      | ']' :: r2 => some ([v], r2)
      | _ => none

/-- Members of a nonempty object after the opening brace. -/
def parseMembers : Nat → List Char → Option (List (String × Json) × List Char)
  | 0, _ => none
  | fuel + 1, cs =>
    match cs with
    | '"' :: r =>
      (match parseStringBody r with
       | none => none
       | some (k, r1) =>
         match r1 with
         | ':' :: r2 =>
           (match parseVal fuel r2 with
            | none => none
            | some (v, r3) =>
              match r3 with
              | ',' :: r4 => (parseMembers fuel r4).map fun mr => ((String.mk k, v) :: mr.1, mr.2)
              | '}' :: r4 => some ([(String.mk k, v)], r4)
              | _ => none)
         | _ => none)
    | _ => none
end

/-- `json.loads` on a whitespace-free document: one value consuming the
whole input. -/
def loadsL (cs : List Char) : Option Json :=
  match parseVal (cs.length + 1) cs with
  | some (j, []) => some j
  | _ => none

/-- `read_state_from_description` (lines 41-48): the first line starting
with the marker is decoded; a decode failure or a missing marker line
yields `{}`. -/
def read_state_from_description (d : String) : Json :=
  match (pySplitlinesL d.toList).find? (fun l => List.isPrefixOf STATE_MARKER l) with
  | some l => (loadsL (stripL (l.drop STATE_MARKER.length))).getD (.obj [])
  | none => .obj []

/-- `write_state_to_description` (lines 51-54): drop old marker lines,
append the new marker line, join with newlines and `strip()` the result. -/
def write_state_to_description (d : String) (st : Json) : String :=
  let lines := (pySplitlinesL d.toList).filter fun l => ! List.isPrefixOf STATE_MARKER l
  String.mk (stripL (joinNL (lines ++ [STATE_MARKER ++ dumpsChars st])))

/-- A transient-classified failing invocation: a raised transport exception
recognised as transient, or a returned result that fails the success test
and classifies transient. -/
def transientOutcome : ExecOutcome → Bool
  | .raises t => t
  | .returns r => !stepSucceeds r && is_transient_result r

/-! ## Lemmas about the retry loop -/

theorem retryLoopGo_transient (base : ℚ) (out : Nat → ExecOutcome) (maxR : Nat) :
    ∀ n a rc, n = maxR + 1 - a → a ≤ maxR →
      (∀ k, a ≤ k → k ≤ maxR → transientOutcome (out k) = true) →
      (retryLoopGo base out maxR n rc a).ninv = maxR + 1 - a ∧
      (retryLoopGo base out maxR n rc a).delays =
        (List.range' a (maxR - a)).map fun k => base * 2 ^ k := by
  intro n
  induction n with
  | zero => intro a rc hn ha _; omega
  | succ m ih =>
    intro a rc hn ha htr
    have hta := htr a le_rfl ha
    rcases lt_or_eq_of_le ha with hlt | heq
    · have hrange : List.range' a (maxR - a) =
          a :: List.range' (a + 1) (maxR - (a + 1)) := by
        have : maxR - a = (maxR - (a + 1)) + 1 := by omega
        rw [this, List.range'_succ]
      have hm : m = maxR + 1 - (a + 1) := by omega
      have hih := ih (a + 1) (a + 1) hm (by omega)
        (fun k hk hk' => htr k (by omega) hk')
      cases hoa : out a with
      | raises t =>
        have ht : t = true := by simpa [transientOutcome, hoa] using hta
        simp only [retryLoopGo, hoa, ht, hlt, and_true, if_pos]
        rw [hrange]
        simp only [List.map_cons]
        exact ⟨by rw [hih.1]; omega, by rw [hih.2]⟩
      | returns r =>
        have hr : stepSucceeds r = false ∧ is_transient_result r = true := by
          have := hta
          simp [transientOutcome, hoa] at this
          exact ⟨by simpa using this.1, this.2⟩
        simp only [retryLoopGo, hoa]
        rw [if_pos ⟨by simp [hr.1], hr.2, hlt⟩]
        rw [hrange]
        simp only [List.map_cons]
        exact ⟨by rw [hih.1]; omega, by rw [hih.2]⟩
    · subst heq
      cases hoa : out a with
      | raises t =>
        have : ¬ (t = true ∧ a < a) := by omega
        simp [retryLoopGo, hoa, this]
      | returns r =>
        have : ¬ ((¬ stepSucceeds r = true) ∧ is_transient_result r = true ∧ a < a) := by
          omega
        simp [retryLoopGo, hoa, this]

theorem retryLoopGo_exhaust (base : ℚ) (out : Nat → ExecOutcome) (maxR : Nat)
    (r : Nat → StepResult) :
    ∀ n a rc, n = maxR + 1 - a → a ≤ maxR →
      (∀ k, a ≤ k → k ≤ maxR → out k = .returns (r k) ∧ stepSucceeds (r k) = false ∧
        is_transient_result (r k) = true) →
      retryLoopGo base out maxR n rc a =
        ⟨.final (r maxR) maxR true, if a < maxR then maxR else rc, maxR + 1 - a,
          (List.range' a (maxR - a)).map fun k => base * 2 ^ k⟩ := by
  intro n
  induction n with
  | zero => intro a rc hn ha _; omega
  | succ m ih =>
    intro a rc hn ha hall
    obtain ⟨hoa, hfail, htr⟩ := hall a le_rfl ha
    rcases lt_or_eq_of_le ha with hlt | heq
    · have hrange : List.range' a (maxR - a) =
          a :: List.range' (a + 1) (maxR - (a + 1)) := by
        have : maxR - a = (maxR - (a + 1)) + 1 := by omega
        rw [this, List.range'_succ]
      have hm : m = maxR + 1 - (a + 1) := by omega
      have hih := ih (a + 1) (a + 1) hm (by omega)
        (fun k hk hk' => hall k (by omega) hk')
      have hrc : (if a + 1 < maxR then maxR else a + 1) = maxR := by split <;> omega
      simp only [retryLoopGo, hoa]
      rw [if_pos ⟨by simp [hfail], htr, hlt⟩]
      rw [hih]
      simp only [hrange, List.map_cons, RetryOut.mk.injEq, hrc, if_pos hlt,
        true_and, and_true]
      omega
    · subst heq
      have hcond : ¬ ((¬ stepSucceeds (r a) = true) ∧ is_transient_result (r a) = true ∧
          a < a) := by omega
      simp [retryLoopGo, hoa, hcond, htr, hn]

/-- The retry loop entered at attempt 0, as `stageLoop` calls it. -/
theorem retryLoop_exhaust (base : ℚ) (out : Nat → ExecOutcome) (maxR rc : Nat)
    (r : Nat → StepResult)
    (hall : ∀ k, k ≤ maxR → out k = .returns (r k) ∧ stepSucceeds (r k) = false ∧
      is_transient_result (r k) = true) :
    retryLoop base out maxR rc 0 =
      ⟨.final (r maxR) maxR true, if 0 < maxR then maxR else rc, maxR + 1,
        (List.range' 0 maxR).map fun k => base * 2 ^ k⟩ := by
  have := retryLoopGo_exhaust base out maxR r (maxR + 1) 0 rc (by omega) (by omega)
    (fun k _ hk => hall k hk)
  simpa [retryLoop] using this

/-- C4: with every attempt failing transient (returned transient failure or
transient transport exception), one pass of the executor's retry loop makes
exactly `maxRetries + 1` invocations and sleeps `base * 2 ^ attempt`
between consecutive attempts. -/
theorem C4_executor_bounded_retries (base : ℚ) (out : Nat → ExecOutcome)
    (maxR rc : Nat)
    (htr : ∀ k, k ≤ maxR → transientOutcome (out k) = true) :
    (retryLoop base out maxR rc 0).ninv = maxR + 1 ∧
    (retryLoop base out maxR rc 0).delays = (List.range maxR).map fun k => base * 2 ^ k := by
  have := retryLoopGo_transient base out maxR (maxR + 1) 0 rc (by omega) (by omega)
    (fun k _ hk => htr k hk)
  have he : retryLoop base out maxR rc 0 = retryLoopGo base out maxR (maxR + 1) rc 0 := by
    simp [retryLoop]
  rw [he]
  constructor
  · rw [this.1]; omega
  · rw [this.2, List.range_eq_range']; simp

/-- Witness for C4: a stage answering a 503-class failure on every attempt,
`maxRetries = 2`, backoff base 2: exactly 3 invocations, sleeping 2 then 4. -/
theorem C4_witness :
    (retryLoop 2 (fun _ => .returns ⟨Json.bool false, "error",
      [Json.obj [("code", Json.str "503")]]⟩) 2 0 0).ninv = 2 + 1 ∧
    (retryLoop 2 (fun _ => .returns ⟨Json.bool false, "error",
      [Json.obj [("code", Json.str "503")]]⟩) 2 0 0).delays =
      (List.range 2).map fun k => (2 : ℚ) * 2 ^ k :=
  C4_executor_bounded_retries 2 _ 2 0 (fun k _ => by decide)

/-! ## C1: exhausted transient retries -/

/-- Shared concrete scenario: `maxRetries = 2`, backoff base 2, all four
workflow ids configured. -/
def cfg22 : RunConfig := ⟨2, 2, "ida", "idb", "idc", "idd"⟩

/-- A 503-class transient failure result. -/
def res503 : StepResult := ⟨Json.bool false, "error", [Json.obj [("code", Json.str "503")]]⟩

/-- A plain success result. -/
def resOK : StepResult := ⟨Json.bool true, "success", []⟩

/-- Stage oracle of the spec's Run 1: `WF_A` succeeds, `WF_B` returns the
503-class failure on every attempt. -/
def oracleRun1 : String → Nat → ExecOutcome :=
  fun s _ => if s = "WF_A" then .returns resOK else .returns res503

/-- An oracle on which every stage succeeds at the first attempt. -/
def oracleAllOK : String → Nat → ExecOutcome := fun _ _ => .returns resOK

/-- The spec's Run 1 on a fresh entity with fingerprint `"h1"`. -/
def exampleRun1 : EntityOutcome := runEntity cfg22 "h1" initialState oracleRun1 "T1"

/-- C1: counterexample.  In the claim's own scenario (`maxRetries = 2`,
stage B failing 503-class on all three attempts after A succeeded) the run
ends with `pipeline_status = "failed"` and persisted `retry_count = 3` —
not `error` / `2` as claimed. -/
theorem C1_counterexample :
    exampleRun1.finalState.current_stage = some "WF_B" ∧
    exampleRun1.finalState.pipeline_status = "failed" ∧
    exampleRun1.finalState.pipeline_status ≠ "error" ∧
    exampleRun1.finalState.retry_count = 3 ∧
    exampleRun1.finalState.retry_count ≠ 2 ∧
    exampleRun1.persisted.getLast? = some exampleRun1.finalState := by decide

/-- C1 (amended): for every run whose entry stage fails with a
transient-classified result on every attempt until the retry budget is
exhausted, the run ends with `pipeline_status = "failed"` (not `error`),
`current_stage` at the failing stage, and persisted `retry_count =
maxRetries + 1` (not `maxRetries`); the final state is the last persisted
one. -/
theorem C1_amended (cfg : RunConfig) (h now : String) (st0 : PState)
    (out : String → Nat → ExecOutcome) (r : Nat → StepResult) (s : String)
    (hskip : skipCheck st0 h = false)
    (hstop : stopCheck (applyReset st0 h) h cfg.maxRetries = false)
    (hs : entryStage (applyReset st0 h) = s)
    (hwf : truthyOptStr (stageToId cfg s) = true)
    (hall : ∀ k, k ≤ cfg.maxRetries → out s k = .returns (r k) ∧
      stepSucceeds (r k) = false ∧ is_transient_result (r k) = true) :
    (runEntity cfg h st0 out now).finalState.pipeline_status = "failed" ∧
    (runEntity cfg h st0 out now).finalState.current_stage = some s ∧
    (runEntity cfg h st0 out now).finalState.retry_count = cfg.maxRetries + 1 ∧
    (runEntity cfg h st0 out now).itemStatus = "failed" ∧
    (runEntity cfg h st0 out now).persisted.getLast? =
      some (runEntity cfg h st0 out now).finalState := by
  have hs2 : entryStage { applyReset st0 h with input_hash := some h, pipeline_status := "running" } = s := by
    rw [← hs]; rfl
  have hro := retryLoop_exhaust cfg.backoff (out s) cfg.maxRetries
    (applyReset st0 h).retry_count r hall
  have hfail := (hall cfg.maxRetries le_rfl).2.1
  simp only [runEntity, hskip, hstop, Bool.false_eq_true, if_false, STAGES,
    List.length_cons, List.length_nil, stageLoop, hs2, hwf, not_true_eq_false,
    if_true, hro, hfail, Bool.false_eq_true, if_false, Bool.true_eq_false]
  simp only [stepSucceeds] at hfail
  simp [hfail, List.getLast?_concat]

/-- Witness for C1 (amended): all three attempts at the entry stage `WF_A`
return the 503-class failure with `maxRetries = 2`. -/
theorem C1_amended_witness :
    (runEntity cfg22 "h1" initialState (fun _ _ => .returns res503) "T1").finalState.pipeline_status = "failed" ∧
    (runEntity cfg22 "h1" initialState (fun _ _ => .returns res503) "T1").finalState.current_stage = some "WF_A" ∧
    (runEntity cfg22 "h1" initialState (fun _ _ => .returns res503) "T1").finalState.retry_count = cfg22.maxRetries + 1 ∧
    (runEntity cfg22 "h1" initialState (fun _ _ => .returns res503) "T1").itemStatus = "failed" ∧
    (runEntity cfg22 "h1" initialState (fun _ _ => .returns res503) "T1").persisted.getLast? =
      some (runEntity cfg22 "h1" initialState (fun _ _ => .returns res503) "T1").finalState :=
  C1_amended cfg22 "h1" "T1" initialState _ (fun _ => res503) "WF_A"
    (by decide) (by decide) (by decide) (by decide)
    (fun k _ => ⟨rfl, (by decide : stepSucceeds res503 = false),
      (by decide : is_transient_result res503 = true)⟩)

/-! ## Lemmas about successful stage chains -/

/-- A first-attempt success ends the retry loop at once. -/
theorem retryLoop_firstOk (base : ℚ) (out : Nat → ExecOutcome) (maxR rc : Nat)
    (r : StepResult) (h0 : out 0 = .returns r) (hok : stepSucceeds r = true) :
    retryLoop base out maxR rc 0 = ⟨.final r 0 (is_transient_result r), rc, 1, []⟩ := by
  simp [retryLoop, retryLoopGo, h0, hok]

theorem entryStage_of_some (st : PState) (t : String) (hcs : st.current_stage = some t)
    (ht : t ≠ "") : entryStage st = t := by
  simp [entryStage, hcs, ht]

/-- The conclusions shared by the per-stage chain lemmas. -/
def okChainOut (o : LoopOut) (h now : String) (tr : List (String × Nat)) : Prop :=
  o.itemStatus = "success" ∧ o.state.pipeline_status = "success" ∧
  o.state.last_success_input_hash = some h ∧ o.state.current_stage = none ∧
  o.state.last_success_stage = some "WF_D" ∧ o.state.last_error = none ∧
  o.state.last_run_at = some now ∧ o.trace = tr ∧ o.raised = false

theorem stageLoop_ok_D (cfg : RunConfig) (h now : String)
    (out : String → Nat → ExecOutcome) (rr : String → StepResult)
    (hwf : ∀ t ∈ STAGES, truthyOptStr (stageToId cfg t) = true)
    (hout : ∀ t, out t 0 = .returns (rr t)) (hok : ∀ t, stepSucceeds (rr t) = true) :
    ∀ fuel st, st.current_stage = some "WF_D" →
      okChainOut (stageLoop cfg h out now (fuel + 1) st) h now [("WF_D", 0)] := by
  intro fuel st hcs
  have hes : entryStage st = "WF_D" := entryStage_of_some st _ hcs (by decide)
  have hro := retryLoop_firstOk cfg.backoff (out "WF_D") cfg.maxRetries st.retry_count
    (rr "WF_D") (hout "WF_D") (hok "WF_D")
  have hnxt : next_stage (some "WF_D") = none := by decide
  have hr1 : List.range 1 = [0] := by decide
  simp [stageLoop, hes, hwf "WF_D" (by decide), hro, hok "WF_D", hnxt, okChainOut, hr1]

theorem stageLoop_ok_C (cfg : RunConfig) (h now : String)
    (out : String → Nat → ExecOutcome) (rr : String → StepResult)
    (hwf : ∀ t ∈ STAGES, truthyOptStr (stageToId cfg t) = true)
    (hout : ∀ t, out t 0 = .returns (rr t)) (hok : ∀ t, stepSucceeds (rr t) = true) :
    ∀ fuel st, st.current_stage = some "WF_C" →
      okChainOut (stageLoop cfg h out now (fuel + 2) st) h now
        [("WF_C", 0), ("WF_D", 0)] := by
  intro fuel st hcs
  have hes : entryStage st = "WF_C" := entryStage_of_some st _ hcs (by decide)
  have hro := retryLoop_firstOk cfg.backoff (out "WF_C") cfg.maxRetries st.retry_count
    (rr "WF_C") (hout "WF_C") (hok "WF_C")
  have hnxt : next_stage (some "WF_C") = some "WF_D" := by decide
  have hr1 : List.range 1 = [0] := by decide
  obtain ⟨h1, h2, h3, h4, h5, h6, h7, h8, h9⟩ :=
    stageLoop_ok_D cfg h now out rr hwf hout hok fuel
      { current_stage := some "WF_D", last_success_stage := some "WF_C", last_run_at := some now, last_error := none, retry_count := 0, pipeline_status := st.pipeline_status, input_hash := st.input_hash, last_success_input_hash := st.last_success_input_hash }
      rfl
  rw [stageLoop]
  simp only [hes, hwf "WF_C" (by decide), hro, hok "WF_C", hnxt, hr1,
    not_true_eq_false, Bool.false_eq_true, if_false, if_true]
  simp [okChainOut, h1, h2, h3, h4, h5, h6, h7, h8, h9]

theorem stageLoop_ok_B (cfg : RunConfig) (h now : String)
    (out : String → Nat → ExecOutcome) (rr : String → StepResult)
    (hwf : ∀ t ∈ STAGES, truthyOptStr (stageToId cfg t) = true)
    (hout : ∀ t, out t 0 = .returns (rr t)) (hok : ∀ t, stepSucceeds (rr t) = true) :
    ∀ fuel st, st.current_stage = some "WF_B" →
      okChainOut (stageLoop cfg h out now (fuel + 3) st) h now
        [("WF_B", 0), ("WF_C", 0), ("WF_D", 0)] := by
  intro fuel st hcs
  have hes : entryStage st = "WF_B" := entryStage_of_some st _ hcs (by decide)
  have hro := retryLoop_firstOk cfg.backoff (out "WF_B") cfg.maxRetries st.retry_count
    (rr "WF_B") (hout "WF_B") (hok "WF_B")
  have hnxt : next_stage (some "WF_B") = some "WF_C" := by decide
  have hr1 : List.range 1 = [0] := by decide
  obtain ⟨h1, h2, h3, h4, h5, h6, h7, h8, h9⟩ :=
    stageLoop_ok_C cfg h now out rr hwf hout hok fuel
      { current_stage := some "WF_C", last_success_stage := some "WF_B", last_run_at := some now, last_error := none, retry_count := 0, pipeline_status := st.pipeline_status, input_hash := st.input_hash, last_success_input_hash := st.last_success_input_hash }
      rfl
  rw [stageLoop]
  simp only [hes, hwf "WF_B" (by decide), hro, hok "WF_B", hnxt, hr1,
    not_true_eq_false, Bool.false_eq_true, if_false, if_true]
  simp [okChainOut, h1, h2, h3, h4, h5, h6, h7, h8, h9]

theorem stageLoop_ok_A (cfg : RunConfig) (h now : String)
    (out : String → Nat → ExecOutcome) (rr : String → StepResult)
    (hwf : ∀ t ∈ STAGES, truthyOptStr (stageToId cfg t) = true)
    (hout : ∀ t, out t 0 = .returns (rr t)) (hok : ∀ t, stepSucceeds (rr t) = true) :
    ∀ fuel st, st.current_stage = none ∨ st.current_stage = some "WF_A" →
      okChainOut (stageLoop cfg h out now (fuel + 4) st) h now
        [("WF_A", 0), ("WF_B", 0), ("WF_C", 0), ("WF_D", 0)] := by
  intro fuel st hcs
  have hes : entryStage st = "WF_A" := by
    rcases hcs with hcs | hcs <;> simp [entryStage, hcs, STAGES]
  have hro := retryLoop_firstOk cfg.backoff (out "WF_A") cfg.maxRetries st.retry_count
    (rr "WF_A") (hout "WF_A") (hok "WF_A")
  have hnxt : next_stage (some "WF_A") = some "WF_B" := by decide
  have hr1 : List.range 1 = [0] := by decide
  obtain ⟨h1, h2, h3, h4, h5, h6, h7, h8, h9⟩ :=
    stageLoop_ok_B cfg h now out rr hwf hout hok fuel
      { current_stage := some "WF_B", last_success_stage := some "WF_A", last_run_at := some now, last_error := none, retry_count := 0, pipeline_status := st.pipeline_status, input_hash := st.input_hash, last_success_input_hash := st.last_success_input_hash }
      rfl
  rw [stageLoop]
  simp only [hes, hwf "WF_A" (by decide), hro, hok "WF_A", hnxt, hr1,
    not_true_eq_false, Bool.false_eq_true, if_false, if_true]
  simp [okChainOut, h1, h2, h3, h4, h5, h6, h7, h8, h9]

/-! ## C2: resumption after a failed run -/

/-- The spec's Run 2: same fingerprint `"h1"`, starting from Run 1's final
state, with every stage now succeeding. -/
def exampleRun2 : EntityOutcome := runEntity cfg22 "h1" exampleRun1.finalState oracleAllOK "T2"

/-- C2: counterexample.  Run 1 ended with the failure recorded at `WF_B`
after `WF_A` succeeded and with the fingerprint `"h1"` stored; yet Run 2
with the unchanged fingerprint performs zero stage invocations and reports
`failed` — it does not resume at B and does not reach success, because the
persisted `retry_count = 3` trips the durable-stop check of line 265. -/
theorem C2_counterexample :
    exampleRun1.finalState.last_success_stage = some "WF_A" ∧
    exampleRun1.finalState.current_stage = some "WF_B" ∧
    exampleRun1.finalState.last_error ≠ none ∧
    exampleRun1.finalState.input_hash = some "h1" ∧
    exampleRun2.trace = [] ∧
    exampleRun2.itemStatus = "failed" ∧
    exampleRun2.finalState.last_success_input_hash ≠ some "h1" := by decide

/-- C2 (amended): resumption holds when the recorded `retry_count` is still
below `maxRetries`: a run entered with an unchanged fingerprint, a recorded
`current_stage`, and `retry_count < maxRetries` makes its first stage
invocation exactly at the recorded stage; with every stage now succeeding
it ends with `pipeline_status = "success"` and `last_success_input_hash`
equal to the fingerprint. -/
theorem C2_amended (cfg : RunConfig) (h now : String) (st0 : PState)
    (out : String → Nat → ExecOutcome) (rr : String → StepResult) (s : String)
    (hskip : skipCheck st0 h = false)
    (hhash : st0.input_hash = some h)
    (hrc : st0.retry_count < cfg.maxRetries)
    (hcs : st0.current_stage = some s)
    (hsS : s ∈ STAGES)
    (hwf : ∀ t ∈ STAGES, truthyOptStr (stageToId cfg t) = true)
    (hout : ∀ t, out t 0 = .returns (rr t)) (hok : ∀ t, stepSucceeds (rr t) = true) :
    (runEntity cfg h st0 out now).trace.head? = some (s, 0) ∧
    (runEntity cfg h st0 out now).itemStatus = "success" ∧
    (runEntity cfg h st0 out now).finalState.pipeline_status = "success" ∧
    (runEntity cfg h st0 out now).finalState.last_success_input_hash = some h := by
  have hreset : applyReset st0 h = st0 := by simp [applyReset, hhash]
  have hge : ¬ (st0.retry_count ≥ cfg.maxRetries) := by omega
  have hstop : stopCheck st0 h cfg.maxRetries = false := by simp [stopCheck, hge]
  simp only [runEntity, hskip, hstop, hreset, Bool.false_eq_true, if_false, STAGES,
    List.length_cons, List.length_nil]
  simp only [STAGES, List.mem_cons, List.mem_singleton, List.not_mem_nil, or_false] at hsS
  rcases hsS with rfl | rfl | rfl | rfl
  · obtain ⟨h1, h2, h3, h4, h5, h6, h7, h8, h9⟩ :=
      stageLoop_ok_A cfg h now out rr hwf hout hok 1
        { current_stage := st0.current_stage, last_success_stage := st0.last_success_stage, last_run_at := st0.last_run_at, last_error := st0.last_error, retry_count := st0.retry_count, pipeline_status := "running", input_hash := some h, last_success_input_hash := st0.last_success_input_hash }
        (Or.inr hcs)
    simp [h1, h2, h3, h8, h9]
  · obtain ⟨h1, h2, h3, h4, h5, h6, h7, h8, h9⟩ :=
      stageLoop_ok_B cfg h now out rr hwf hout hok 2
        { current_stage := st0.current_stage, last_success_stage := st0.last_success_stage, last_run_at := st0.last_run_at, last_error := st0.last_error, retry_count := st0.retry_count, pipeline_status := "running", input_hash := some h, last_success_input_hash := st0.last_success_input_hash }
        hcs
    simp [h1, h2, h3, h8, h9]
  · obtain ⟨h1, h2, h3, h4, h5, h6, h7, h8, h9⟩ :=
      stageLoop_ok_C cfg h now out rr hwf hout hok 3
        { current_stage := st0.current_stage, last_success_stage := st0.last_success_stage, last_run_at := st0.last_run_at, last_error := st0.last_error, retry_count := st0.retry_count, pipeline_status := "running", input_hash := some h, last_success_input_hash := st0.last_success_input_hash }
        hcs
    simp [h1, h2, h3, h8, h9]
  · obtain ⟨h1, h2, h3, h4, h5, h6, h7, h8, h9⟩ :=
      stageLoop_ok_D cfg h now out rr hwf hout hok 4
        { current_stage := st0.current_stage, last_success_stage := st0.last_success_stage, last_run_at := st0.last_run_at, last_error := st0.last_error, retry_count := st0.retry_count, pipeline_status := "running", input_hash := some h, last_success_input_hash := st0.last_success_input_hash }
        hcs
    simp [h1, h2, h3, h8, h9]

/-- The state left behind by a first-attempt fatal failure at `WF_B` after
`WF_A` succeeded (`retry_count = 1 < maxRetries`). -/
def failedAtB : PState :=
  { current_stage := some "WF_B", last_success_stage := some "WF_A",
    last_run_at := some "T1",
    last_error := some (Json.obj [("stage", Json.str "WF_B"), ("status", Json.str "error"), ("errors", Json.arr [Json.obj [("code", Json.str "401")]])]),
    retry_count := 1, pipeline_status := "failed", input_hash := some "h1",
    last_success_input_hash := none }

/-- Witness for C2 (amended): resuming `failedAtB` with the same
fingerprint and an all-succeeding oracle starts at `WF_B` and ends in
success. -/
theorem C2_amended_witness :
    (runEntity cfg22 "h1" failedAtB oracleAllOK "T2").trace.head? = some ("WF_B", 0) ∧
    (runEntity cfg22 "h1" failedAtB oracleAllOK "T2").itemStatus = "success" ∧
    (runEntity cfg22 "h1" failedAtB oracleAllOK "T2").finalState.pipeline_status = "success" ∧
    (runEntity cfg22 "h1" failedAtB oracleAllOK "T2").finalState.last_success_input_hash = some "h1" :=
  C2_amended cfg22 "h1" "T2" failedAtB oracleAllOK (fun _ => resOK) "WF_B"
    (by decide) (by decide) (by decide) (by decide) (by decide)
    (fun t ht => by fin_cases ht <;> decide)
    (fun t => rfl) (fun t => (by decide : stepSucceeds resOK = true))

/-! ## C5: `last_success_input_hash` is written only at terminal success -/

theorem stageLoop_lsih (cfg : RunConfig) (h now : String)
    (out : String → Nat → ExecOutcome) :
    ∀ fuel st,
      ((stageLoop cfg h out now fuel st).state.last_success_input_hash =
          st.last_success_input_hash ∨
        ((stageLoop cfg h out now fuel st).state.last_success_input_hash = some h ∧
         (stageLoop cfg h out now fuel st).state.pipeline_status = "success" ∧
         (stageLoop cfg h out now fuel st).state.current_stage = none ∧
         (stageLoop cfg h out now fuel st).itemStatus = "success")) ∧
      ∀ p ∈ (stageLoop cfg h out now fuel st).persisted,
        p.last_success_input_hash = st.last_success_input_hash := by
  intro fuel
  induction fuel with
  | zero => intro st; simp [stageLoop]
  | succ n ih =>
    intro st
    simp only [stageLoop]
    by_cases hwf : ¬ truthyOptStr (stageToId cfg (entryStage st)) = true
    · simp [hwf]
    · simp only [hwf, if_false]
      cases hexit : (retryLoop cfg.backoff (out (entryStage st)) cfg.maxRetries
          st.retry_count 0).exit with
      | raised => simp [hexit]
      | final r attempt transient =>
        by_cases hok : stepSucceeds r = true
        · simp only [hexit, hok, if_true]
          cases hnxt : next_stage (some (entryStage st)) with
          | none => simp [hnxt]
          | some nxt =>
            simp only [hnxt]
            have hih := ih { st with last_run_at := some now, last_success_stage := some (entryStage st), last_error := none, retry_count := 0, current_stage := some nxt }
            rcases hih with ⟨hst, hper⟩
            constructor
            · rcases hst with hst | hst
              · left; simpa using hst
              · right; simpa using hst
            · intro p hp
              simp only [List.mem_cons] at hp
              rcases hp with rfl | hp
              · rfl
              · simpa using hper p hp
        · simp [hexit, hok]
  

theorem applyReset_lsih (st : PState) (h : String) :
    (applyReset st h).last_success_input_hash = st.last_success_input_hash := by
  unfold applyReset; split <;> rfl

/-- C5: a persisted state whose `last_success_input_hash` differs from the
one the run started with can only be the terminal-success state: it then
simultaneously has `pipeline_status = "success"`, `current_stage = none`,
and `last_success_input_hash` equal to the fingerprint of that run.  In
particular the field is never written on the skip, reset, or failure
paths. -/
theorem C5_lsih_only_terminal (cfg : RunConfig) (h now : String) (st0 : PState)
    (out : String → Nat → ExecOutcome) (p : PState)
    (hp : p ∈ (runEntity cfg h st0 out now).persisted)
    (hne : p.last_success_input_hash ≠ st0.last_success_input_hash) :
    p.last_success_input_hash = some h ∧ p.pipeline_status = "success" ∧
    p.current_stage = none := by
  by_cases hskip : skipCheck st0 h = true
  · simp only [runEntity, hskip, if_true, List.mem_singleton] at hp
    subst hp
    simp at hne
  · by_cases hstop : stopCheck (applyReset st0 h) h cfg.maxRetries = true
    · simp only [runEntity, hskip, hstop, Bool.false_eq_true, if_false, if_true,
        List.mem_singleton] at hp
      subst hp
      rw [show ({ applyReset st0 h with pipeline_status := "failed", last_run_at := some now } : PState).last_success_input_hash = (applyReset st0 h).last_success_input_hash from rfl, applyReset_lsih] at hne
      simp at hne
    · have hmain := stageLoop_lsih cfg h now out (STAGES.length + 1)
        { applyReset st0 h with input_hash := some h, pipeline_status := "running" }
      rcases hmain with ⟨hst, hper⟩
      have hlsih2 : ({ applyReset st0 h with input_hash := some h, pipeline_status := "running" } : PState).last_success_input_hash = st0.last_success_input_hash := by
        rw [show ({ applyReset st0 h with input_hash := some h, pipeline_status := "running" } : PState).last_success_input_hash = (applyReset st0 h).last_success_input_hash from rfl, applyReset_lsih]
      simp only [runEntity, hskip, hstop, Bool.false_eq_true, if_false] at hp
      by_cases hr : (stageLoop cfg h out now (STAGES.length + 1)
          { applyReset st0 h with input_hash := some h, pipeline_status := "running" }).raised = true
      · simp only [hr, if_true] at hp
        have := hper p hp
        rw [hlsih2] at this
        exact absurd this hne
      · simp only [hr, Bool.false_eq_true, if_false, List.mem_append,
          List.mem_singleton] at hp
        rcases hp with hp | rfl
        · have := hper p hp
          rw [hlsih2] at this
          exact absurd this hne
        · rcases hst with hst | hst
          · rw [hlsih2] at hst
            exact absurd hst hne
          · exact ⟨hst.1, hst.2.1, hst.2.2.1⟩

/-- A full successful run on a fresh entity with fingerprint `"h1"`. -/
def exampleRunOK : EntityOutcome := runEntity cfg22 "h1" initialState oracleAllOK "T1"

/-- Witness for C5, at the terminal-success persist of a concrete run. -/
theorem C5_witness :
    exampleRunOK.finalState.last_success_input_hash = some "h1" ∧
    exampleRunOK.finalState.pipeline_status = "success" ∧
    exampleRunOK.finalState.current_stage = none :=
  C5_lsih_only_terminal cfg22 "h1" "T1" initialState oracleAllOK
    exampleRunOK.finalState (by decide) (by decide)

/-! ## C6: full skip and idempotence -/

theorem shaRounds_length : ∀ ws ks st, st.length = 8 → (shaRounds ws ks st).length = 8 := by
  intro ws
  induction ws with
  | nil => intro ks st h; simpa [shaRounds] using h
  | cons w ws ih =>
    intro ks st h
    cases ks with
    | nil => simpa [shaRounds] using h
    | cons k ks =>
      rcases st with _ | ⟨a, _ | ⟨b, _ | ⟨c, _ | ⟨d, _ | ⟨e, _ | ⟨f, _ | ⟨g, _ | ⟨hh, _ | ⟨i, t⟩⟩⟩⟩⟩⟩⟩⟩⟩ <;>
        simp_all [shaRounds]

theorem foldl_processChunk_length :
    ∀ (chunks : List (List Nat)) (hv : List Nat),
      hv.length = 8 → (chunks.foldl processChunk hv).length = 8 := by
  intro chunks
  induction chunks with
  | nil => intro hv h; simpa
  | cons c cs ih =>
    intro hv h
    rw [List.foldl_cons]
    apply ih
    rw [processChunk]
    rw [List.length_map, List.length_zip, shaRounds_length _ _ _ h, h]
    simp

theorem sha256hex_ne_empty (msg : List Nat) : sha256hex msg ≠ "" := by
  have hlen : (sha256Words msg).length = 8 :=
    foldl_processChunk_length _ _ (by decide)
  rcases hw : sha256Words msg with _ | ⟨w, ws⟩
  · rw [hw] at hlen; simp at hlen
  · rw [sha256hex, hw]
    intro hcon
    have : (List.map wordHex (w :: ws)).flatten = [] := by
      have := congrArg String.data hcon
      simpa using this
    simp [wordHex] at this

theorem input_hash_ne_empty (pt : Json) : input_hash_for_pt pt ≠ "" :=
  sha256hex_ne_empty _

theorem next_stage_eq_none (t : String) (hnone : next_stage (some t) = none) :
    t = "WF_D" := by
  by_cases h0 : t = ""
  · rw [h0] at hnone
    exact absurd hnone (by decide)
  · by_cases h1 : STAGES.contains t = true
    · have ht : t ∈ STAGES := by simpa using h1
      simp only [STAGES, List.mem_cons, List.mem_singleton, List.not_mem_nil,
        or_false] at ht
      rcases ht with rfl | rfl | rfl | rfl
      · exact absurd hnone (by decide)
      · exact absurd hnone (by decide)
      · exact absurd hnone (by decide)
      · rfl
    · have h2 : t ∉ STAGES := by simpa using h1
      rw [next_stage] at hnone
      simp [h0, h2] at hnone

/-- A stage loop reporting `"success"` ended in the terminal-success branch:
the final stage `WF_D` is recorded, the error cleared, the fingerprint
stored. -/
theorem stageLoop_success_fields (cfg : RunConfig) (h now : String)
    (out : String → Nat → ExecOutcome) :
    ∀ fuel st, (stageLoop cfg h out now fuel st).itemStatus = "success" →
      (stageLoop cfg h out now fuel st).state.last_success_input_hash = some h ∧
      (stageLoop cfg h out now fuel st).state.pipeline_status = "success" ∧
      (stageLoop cfg h out now fuel st).state.current_stage = none ∧
      (stageLoop cfg h out now fuel st).state.last_success_stage = some "WF_D" ∧
      (stageLoop cfg h out now fuel st).state.last_error = none ∧
      (stageLoop cfg h out now fuel st).raised = false := by
  intro fuel
  induction fuel with
  | zero => intro st hss; simp [stageLoop] at hss
  | succ n ih =>
    intro st
    simp only [stageLoop]
    by_cases hwf : ¬ truthyOptStr (stageToId cfg (entryStage st)) = true
    · simp [hwf]
    · simp only [hwf, if_false]
      cases hexit : (retryLoop cfg.backoff (out (entryStage st)) cfg.maxRetries
          st.retry_count 0).exit with
      | raised => simp [hexit]
      | final r attempt transient =>
        by_cases hok : stepSucceeds r = true
        · simp only [hexit, hok, if_true]
          cases hnxt : next_stage (some (entryStage st)) with
          | none =>
            have hD := next_stage_eq_none _ hnxt
            simp [hnxt, hD]
          | some nxt =>
            simp only [hnxt]
            intro hss
            have := ih { st with last_run_at := some now, last_success_stage := some (entryStage st), last_error := none, retry_count := 0, current_stage := some nxt } (by simpa using hss)
            simpa using this
        · simp only [hexit, hok, Bool.false_eq_true, if_false]
          intro hss
          exfalso
          revert hss
          split <;> simp

/-- C6: (a) an entity whose decoded state records a completed successful
pipeline (`last_success_stage` is the final stage, no outstanding error)
under a stored `last_success_input_hash` equal to the current fingerprint
performs zero stage invocations and reports `skipped_no_change`; (b) hence
a run that ends in `success` makes the next run with the unchanged
fingerprint perform zero stage invocations and report `skipped_no_change`. -/
theorem C6_skip_and_idempotence (cfg : RunConfig) (pt : Json) (st0 : PState)
    (out out2 : String → Nat → ExecOutcome) (now now2 : String) :
    (st0.last_success_input_hash = some (input_hash_for_pt pt) →
      st0.last_success_stage = some FINAL_STAGE →
      st0.last_error = none →
      (runEntity cfg (input_hash_for_pt pt) st0 out now).trace = [] ∧
      (runEntity cfg (input_hash_for_pt pt) st0 out now).itemStatus = "skipped_no_change") ∧
    ((runEntity cfg (input_hash_for_pt pt) st0 out now).itemStatus = "success" →
      (runEntity cfg (input_hash_for_pt pt)
        (runEntity cfg (input_hash_for_pt pt) st0 out now).finalState out2 now2).trace = [] ∧
      (runEntity cfg (input_hash_for_pt pt)
        (runEntity cfg (input_hash_for_pt pt) st0 out now).finalState out2 now2).itemStatus =
        "skipped_no_change") := by
  have hne : input_hash_for_pt pt ≠ "" := input_hash_ne_empty pt
  constructor
  · intro hlsih hfinal herr
    have hskip : skipCheck st0 (input_hash_for_pt pt) = true := by
      simp [skipCheck, hlsih, hfinal, herr, truthyOptStr, truthyErr, hne, FINAL_STAGE]
    simp [runEntity, hskip]
  · intro hsucc
    have hmain : (runEntity cfg (input_hash_for_pt pt) st0 out now).finalState =
        (stageLoop cfg (input_hash_for_pt pt) out now (STAGES.length + 1)
          { applyReset st0 (input_hash_for_pt pt) with input_hash := some (input_hash_for_pt pt), pipeline_status := "running" }).state ∧
        (stageLoop cfg (input_hash_for_pt pt) out now (STAGES.length + 1)
          { applyReset st0 (input_hash_for_pt pt) with input_hash := some (input_hash_for_pt pt), pipeline_status := "running" }).itemStatus = "success" := by
      by_cases hskip : skipCheck st0 (input_hash_for_pt pt) = true
      · simp [runEntity, hskip] at hsucc
      · by_cases hstop : stopCheck (applyReset st0 (input_hash_for_pt pt))
            (input_hash_for_pt pt) cfg.maxRetries = true
        · simp [runEntity, hskip, hstop] at hsucc
        · by_cases hr : (stageLoop cfg (input_hash_for_pt pt) out now (STAGES.length + 1)
              { applyReset st0 (input_hash_for_pt pt) with input_hash := some (input_hash_for_pt pt), pipeline_status := "running" }).raised = true
          · simp [runEntity, hskip, hstop, hr] at hsucc
          · simp only [runEntity, hskip, hstop, hr, Bool.false_eq_true, if_false] at hsucc ⊢
            exact ⟨by trivial, hsucc⟩
    obtain ⟨hfs, hls⟩ := hmain
    obtain ⟨f1, f2, f3, f4, f5, f6⟩ := stageLoop_success_fields cfg
      (input_hash_for_pt pt) now out (STAGES.length + 1)
      { applyReset st0 (input_hash_for_pt pt) with input_hash := some (input_hash_for_pt pt), pipeline_status := "running" } hls
    have hFD : FINAL_STAGE = "WF_D" := by decide
    set fs := (runEntity cfg (input_hash_for_pt pt) st0 out now).finalState with hfsdef
    have hskip2 : skipCheck fs (input_hash_for_pt pt) = true := by
      rw [hfs]
      simp [skipCheck, f1, f4, f5, truthyOptStr, truthyErr, hne, hFD]
    simp [runEntity, hskip2]

/-- A concrete entity for the fingerprint-dependent witnesses. -/
def ptW : Json := Json.obj [("name", Json.str "x"), ("updated", Json.str "U1")]

/-- A state recording a completed successful pipeline under `ptW`'s
fingerprint. -/
def skipStateW : PState :=
  { current_stage := none, last_success_stage := some "WF_D", last_run_at := some "T0",
    last_error := none, retry_count := 0, pipeline_status := "success",
    input_hash := some (input_hash_for_pt ptW),
    last_success_input_hash := some (input_hash_for_pt ptW) }

/-- Witness for C6: the recorded-success state is skipped with zero
invocations, and a fresh successful run makes the immediate re-run skip. -/
theorem C6_witness :
    ((runEntity cfg22 (input_hash_for_pt ptW) skipStateW oracleAllOK "T1").trace = [] ∧
     (runEntity cfg22 (input_hash_for_pt ptW) skipStateW oracleAllOK "T1").itemStatus =
       "skipped_no_change") ∧
    ((runEntity cfg22 (input_hash_for_pt ptW)
        (runEntity cfg22 (input_hash_for_pt ptW) initialState oracleAllOK "T1").finalState
        oracleAllOK "T2").trace = [] ∧
     (runEntity cfg22 (input_hash_for_pt ptW)
        (runEntity cfg22 (input_hash_for_pt ptW) initialState oracleAllOK "T1").finalState
        oracleAllOK "T2").itemStatus = "skipped_no_change") :=
  ⟨(C6_skip_and_idempotence cfg22 ptW skipStateW oracleAllOK oracleAllOK "T1" "T2").1
      rfl (by decide) rfl,
   (C6_skip_and_idempotence cfg22 ptW initialState oracleAllOK oracleAllOK "T1" "T2").2
      (by decide)⟩

/-! ## C10: the stage success test -/

/-- C10: a normalised step result (with a boolean `ok`, as the StepResult
contract specifies) is treated as a successful stage attempt exactly when
`ok` is true and `status` lies in `SUCCESS_STATUSES`; any other combination
is handled as a failure.  Stated for a run whose entry stage is the final
one and whose result classifies non-transient, so the single attempt's
handling is observed directly. -/
theorem C10_success_test (cfg : RunConfig) (h now : String) (st0 : PState)
    (out : String → Nat → ExecOutcome) (r : StepResult) (b : Bool)
    (hskip : skipCheck st0 h = false)
    (hstop : stopCheck (applyReset st0 h) h cfg.maxRetries = false)
    (hcs : entryStage (applyReset st0 h) = "WF_D")
    (hwf : truthyOptStr (stageToId cfg "WF_D") = true)
    (hout : out "WF_D" 0 = .returns r)
    (hok : r.ok = Json.bool b)
    (htr : is_transient_result r = false) :
    ((runEntity cfg h st0 out now).itemStatus = "success" ↔
      (b = true ∧ r.status ∈ SUCCESS_STATUSES)) ∧
    (¬ (b = true ∧ r.status ∈ SUCCESS_STATUSES) →
      (runEntity cfg h st0 out now).itemStatus = "failed") := by
  have hs2 : entryStage { applyReset st0 h with input_hash := some h, pipeline_status := "running" } = "WF_D" := by
    rw [← hcs]; rfl
  have hro : retryLoop cfg.backoff (out "WF_D") cfg.maxRetries
      (applyReset st0 h).retry_count 0 =
      ⟨.final r 0 false, (applyReset st0 h).retry_count, 1, []⟩ := by
    simp [retryLoop, retryLoopGo, hout, htr]
  have hstep : stepSucceeds r = true ↔ (b = true ∧ r.status ∈ SUCCESS_STATUSES) := by
    simp [stepSucceeds, hok, pyTruthy]
  have hnxt : next_stage (some "WF_D") = none := by decide
  by_cases hb : stepSucceeds r = true
  · have hgoal : (runEntity cfg h st0 out now).itemStatus = "success" := by
      simp only [runEntity, hskip, hstop, Bool.false_eq_true, if_false, STAGES,
        List.length_cons, List.length_nil, stageLoop, hs2, hwf, not_true_eq_false,
        if_true, hro, hb, hnxt]
    exact ⟨by simp [hgoal, hstep.mp hb], fun hc => absurd (hstep.mp hb) hc⟩
  · have hgoal : (runEntity cfg h st0 out now).itemStatus = "failed" := by
      simp only [runEntity, hskip, hstop, Bool.false_eq_true, if_false, STAGES,
        List.length_cons, List.length_nil, stageLoop, hs2, hwf, not_true_eq_false,
        if_true, hro]
      simp [hb]
    refine ⟨?_, fun _ => hgoal⟩
    rw [hgoal]
    exact ⟨fun hcon => absurd hcon (by decide), fun hcon => absurd (hstep.mpr hcon) hb⟩

/-- Witness for C10: an `ok = true` result with the non-success status
`"queued"` is handled as a failure. -/
theorem C10_witness :
    ((runEntity cfg22 "h1" { initialState with current_stage := some "WF_D", input_hash := some "h1" }
        (fun _ _ => .returns ⟨Json.bool true, "queued", []⟩) "T1").itemStatus = "success" ↔
      (true = true ∧ ("queued" : String) ∈ SUCCESS_STATUSES)) ∧
    (¬ (true = true ∧ ("queued" : String) ∈ SUCCESS_STATUSES) →
      (runEntity cfg22 "h1" { initialState with current_stage := some "WF_D", input_hash := some "h1" }
        (fun _ _ => .returns ⟨Json.bool true, "queued", []⟩) "T1").itemStatus = "failed") :=
  C10_success_test cfg22 "h1" "T1" { initialState with current_stage := some "WF_D", input_hash := some "h1" }
    _ ⟨Json.bool true, "queued", []⟩ true
    (by decide) (by decide) (by decide) (by decide) rfl rfl (by decide)

/-! ## C3: the fatal short-circuit of the Retry Classifier -/

/-- C3: counterexample.  A failed result whose error list carries a 503
descriptor first and a 401 (authentication) descriptor second is
classified transient: the loop of `is_transient_result` returns at the
first descriptor bearing any marker, so a later authentication marker does
not override an earlier retryable one, contrary to the claim. -/
theorem C3_counterexample :
    is_transient_result ⟨Json.bool false, "error",
      [Json.obj [("code", Json.str "503")], Json.obj [("code", Json.str "401")]]⟩ = true := by
  decide

/-- C3 (amended): the classification scans the error list in order and
returns at the first descriptor bearing any marker; a descriptor carrying
an authentication/authorization marker therefore forces the fatal verdict
when every earlier descriptor is marker-free (and the status is not
`"timeout"`), even if retryable markers co-occur in that same descriptor
or in later ones. -/
theorem C3_amended (r : StepResult) (pre post : List Json) (e : Json)
    (hst : ¬ lowerChars r.status.toList = "timeout".toList)
    (herr : r.errors = pre ++ e :: post)
    (hpre : ∀ p ∈ pre, authMarked p = false ∧ transientMarked p = false)
    (hauth : authMarked e = true) :
    is_transient_result r = false := by
  rw [is_transient_result, if_neg hst, herr]
  clear herr hst
  induction pre with
  | nil => simp [scanErrors, hauth]
  | cons p ps ih =>
    have hp := hpre p (by simp)
    rw [List.cons_append, scanErrors, if_neg (by simp [hp.1]), if_neg (by simp [hp.2])]
    exact ih fun q hq => hpre q (by simp [hq])

/-- Witness for C3 (amended): a marker-free descriptor followed by one
carrying both an authentication marker (`401`) and retryable markers
(`rate`, `503`) in the same descriptor: classified fatal. -/
theorem C3_amended_witness :
    is_transient_result ⟨Json.bool false, "error",
      [Json.obj [("note", Json.str "hello")],
       Json.obj [("code", Json.str "401 rate limited 503")]]⟩ = false :=
  C3_amended ⟨Json.bool false, "error",
      [Json.obj [("note", Json.str "hello")],
       Json.obj [("code", Json.str "401 rate limited 503")]]⟩
    [Json.obj [("note", Json.str "hello")]] []
    (Json.obj [("code", Json.str "401 rate limited 503")])
    (by decide) rfl
    (fun p hp => by
      have : p = Json.obj [("note", Json.str "hello")] := by simpa using hp
      rw [this]
      exact ⟨by decide, by decide⟩)
    (by decide)

/-! ## C9: the fingerprint's inputs -/

/-- C9: counterexample.  Two entities agreeing on `name` (and both lacking
`updated`) but differing in `updated_at` receive different fingerprints:
line 177 falls back to `updated_at` when `updated` is missing or falsy, so
the digest does not depend only on `name` and `updated`. -/
theorem C9_counterexample :
    input_hash_for_pt (Json.obj [("name", Json.str "x"), ("updated_at", Json.str "A")]) ≠
    input_hash_for_pt (Json.obj [("name", Json.str "x"), ("updated_at", Json.str "B")]) := by
  decide

/-- C9 (amended): the fingerprint is a deterministic function of exactly
`pt.get("name")` and the derived value `pt.get("updated") or
pt.get("updated_at") or ""`: two entities agreeing on those two values
hash identically, whatever their other attributes; in particular, when
`updated` is present and truthy, `updated_at` and all other attributes are
irrelevant. -/
theorem C9_amended (pt1 pt2 : Json)
    (hn : nameAttr pt1 = nameAttr pt2)
    (hu : updatedAttr pt1 = updatedAttr pt2) :
    input_hash_for_pt pt1 = input_hash_for_pt pt2 := by
  rw [input_hash_for_pt, input_hash_for_pt, hn, hu]

/-- Witness for C9 (amended): an extra attribute and a differing
`updated_at` do not change the fingerprint when `updated` is present and
truthy. -/
theorem C9_amended_witness :
    input_hash_for_pt (Json.obj [("name", Json.str "x"), ("updated", Json.str "U1"),
      ("updated_at", Json.str "ZZZ"), ("id", Json.num 7)]) =
    input_hash_for_pt (Json.obj [("name", Json.str "x"), ("updated", Json.str "U1")]) :=
  C9_amended _ _ (by decide) (by decide)

/-! ## C8: the StepResult Normalizer -/

/-- Whether an unwrap location holds a dict bearing both `ok` and `status`. -/
def okStatus : Option Json → Bool
  | some (.obj ms) => hasKey ms "ok" && hasKey ms "status"
  | _ => false

/-- The `data[0]["json"]` unwrap location (guarded as in lines 86-89). -/
def data0json (raw : Json) : Option Json :=
  match jget raw "data" with
  | some (.arr (first :: _)) =>
    (match first with
     | .obj _ => jget first "json"
     | _ => none)
  | _ => none

/-- The selected candidate is always one of the three unwrap locations. -/
theorem candidateOf_cases (raw : Json) :
    candidateOf raw = raw ∨ jget raw "json" = some (candidateOf raw) ∨
      data0json raw = some (candidateOf raw) := by
  rw [candidateOf, data0json]
  cases hj : jget raw "json" with
  | some v =>
    cases v with
    | obj jms => simp
    | null | bool _ | num _ | str _ | arr _ =>
      cases hd : jget raw "data" with
      | some w =>
        cases w with
        | arr es =>
          cases es with
          | nil => simp
          | cons first rest =>
            cases first with
            | obj fms =>
              cases hf : jget (.obj fms) "json" with
              | some u =>
                cases u with
                | obj ums => simp [hf]
                | null | bool _ | num _ | str _ | arr _ => simp [hf]
              | none => simp [hf]
            | null | bool _ | num _ | str _ | arr _ => simp
        | null | bool _ | num _ | str _ | obj _ => simp
      | none => simp
  | none =>
    cases hd : jget raw "data" with
    | some w =>
      cases w with
      | arr es =>
        cases es with
        | nil => simp
        | cons first rest =>
          cases first with
          | obj fms =>
            cases hf : jget (.obj fms) "json" with
            | some u =>
              cases u with
              | obj ums => simp [hf]
              | null | bool _ | num _ | str _ | arr _ => simp [hf]
            | none => simp [hf]
          | null | bool _ | num _ | str _ | arr _ => simp
      | null | bool _ | num _ | str _ | obj _ => simp
    | none => simp

theorem hasKey_setdefault_self (ms : List (String × Json)) (k : String) (v : Json) :
    hasKey (setdefault ms k v) k = true := by
  rw [setdefault]
  split
  · assumption
  · simp [hasKey]

theorem hasKey_setdefault_mono (ms : List (String × Json)) (k : String) (v : Json)
    (k' : String) (h : hasKey ms k' = true) : hasKey (setdefault ms k v) k' = true := by
  rw [setdefault]
  split
  · exact h
  · simp [hasKey] at h ⊢
    tauto

/-- C8: (a) when none of the three unwrap locations (the response itself,
its `json` sub-object, `data[0]["json"]`) holds a dict with both `ok` and
`status`, normalization returns — without raising, being a total function —
the standard failure: `ok = false`, `status = "error"`, the provided
fallback stage and entity id, and the single error descriptor
`invalid_workflow_response`; (b) when the selected candidate does hold
both, the result is that dict with every missing canonical field filled
in. -/
theorem C8_normalize (raw : Json) (fallback : String) (ptId : Int) (ts : String) :
    (okStatus (some raw) = false → okStatus (jget raw "json") = false →
      okStatus (data0json raw) = false →
      jget (normalize_workflow_result raw fallback ptId ts) "ok" = some (.bool false) ∧
      jget (normalize_workflow_result raw fallback ptId ts) "status" = some (.str "error") ∧
      jget (normalize_workflow_result raw fallback ptId ts) "stage" = some (.str fallback) ∧
      jget (normalize_workflow_result raw fallback ptId ts) "product_type_id" =
        some (.num ptId) ∧
      jget (normalize_workflow_result raw fallback ptId ts) "errors" =
        some (.arr [.obj [("code", .str "invalid_workflow_response")]])) ∧
    (∀ cms, candidateOf raw = .obj cms → hasKey cms "ok" = true →
      hasKey cms "status" = true →
      ∃ rms, normalize_workflow_result raw fallback ptId ts = .obj rms ∧
        ∀ k ∈ (["ok", "status", "stage", "product_type_id", "product_id", "metrics",
          "errors", "warnings", "timestamps"] : List String), hasKey rms k = true) := by
  constructor
  · intro h1 h2 h3
    have hbad : normalize_workflow_result raw fallback ptId ts =
        objAssign (objAssign (default_result ts) "stage" (.str fallback))
          "product_type_id" (.num ptId) := by
      rcases raw with _ | b | n | t | es | rms
      case null => rfl
      case bool => rfl
      case num => rfl
      case str => rfl
      case arr => rfl
      simp only [normalize_workflow_result]
      split
      next cms hc =>
        rw [if_neg]
        intro hcond
        rcases candidateOf_cases (Json.obj rms) with hcc | hcc | hcc
        · rw [hc] at hcc
          rw [← hcc] at h1
          simp only [okStatus] at h1
          rw [hcond] at h1
          exact absurd h1 (by decide)
        · rw [hc] at hcc
          rw [hcc] at h2
          simp only [okStatus] at h2
          rw [hcond] at h2
          exact absurd h2 (by decide)
        · rw [hc] at hcc
          rw [hcc] at h3
          simp only [okStatus] at h3
          rw [hcond] at h3
          exact absurd h3 (by decide)
      next hne2 => rfl
    rw [hbad]
    refine ⟨?_, ?_, ?_, ?_, ?_⟩ <;>
      simp [objAssign, default_result, jget, List.find?]
  · intro cms hc hok hstat
    rcases raw with _ | b | n | t | es | rms
    case null => simp [candidateOf, jget] at hc
    case bool => simp [candidateOf, jget] at hc
    case num => simp [candidateOf, jget] at hc
    case str => simp [candidateOf, jget] at hc
    case arr => simp [candidateOf, jget] at hc
    simp only [normalize_workflow_result, hc]
    rw [if_pos (by simp [hok, hstat])]
    refine ⟨_, rfl, ?_⟩
    intro k hk
    fin_cases hk
    · exact hasKey_setdefault_mono _ _ _ _ (hasKey_setdefault_mono _ _ _ _ (hasKey_setdefault_mono _ _ _ _ (hasKey_setdefault_mono _ _ _ _ (hasKey_setdefault_mono _ _ _ _ (hasKey_setdefault_mono _ _ _ _ (hasKey_setdefault_mono _ _ _ _ hok))))))
    · exact hasKey_setdefault_mono _ _ _ _ (hasKey_setdefault_mono _ _ _ _ (hasKey_setdefault_mono _ _ _ _ (hasKey_setdefault_mono _ _ _ _ (hasKey_setdefault_mono _ _ _ _ (hasKey_setdefault_mono _ _ _ _ (hasKey_setdefault_mono _ _ _ _ hstat))))))
    · exact hasKey_setdefault_mono _ _ _ _ (hasKey_setdefault_mono _ _ _ _ (hasKey_setdefault_mono _ _ _ _ (hasKey_setdefault_mono _ _ _ _ (hasKey_setdefault_mono _ _ _ _ (hasKey_setdefault_mono _ _ _ _ (hasKey_setdefault_self _ _ _))))))
    · exact hasKey_setdefault_mono _ _ _ _ (hasKey_setdefault_mono _ _ _ _ (hasKey_setdefault_mono _ _ _ _ (hasKey_setdefault_mono _ _ _ _ (hasKey_setdefault_mono _ _ _ _ (hasKey_setdefault_self _ _ _)))))
    · exact hasKey_setdefault_self _ _ _
    · exact hasKey_setdefault_mono _ _ _ _ (hasKey_setdefault_mono _ _ _ _ (hasKey_setdefault_mono _ _ _ _ (hasKey_setdefault_mono _ _ _ _ (hasKey_setdefault_self _ _ _))))
    · exact hasKey_setdefault_mono _ _ _ _ (hasKey_setdefault_mono _ _ _ _ (hasKey_setdefault_mono _ _ _ _ (hasKey_setdefault_self _ _ _)))
    · exact hasKey_setdefault_mono _ _ _ _ (hasKey_setdefault_mono _ _ _ _ (hasKey_setdefault_self _ _ _))
    · exact hasKey_setdefault_mono _ _ _ _ (hasKey_setdefault_self _ _ _)

/-- Witness for C8: a shapeless payload maps to the standard failure, and a
bare `{ok, status}` payload is completed with every canonical field. -/
theorem C8_witness :
    (jget (normalize_workflow_result (Json.obj [("foo", Json.num 1)]) "WF_B" 7 "TS") "ok" =
        some (.bool false) ∧
      jget (normalize_workflow_result (Json.obj [("foo", Json.num 1)]) "WF_B" 7 "TS") "status" =
        some (.str "error") ∧
      jget (normalize_workflow_result (Json.obj [("foo", Json.num 1)]) "WF_B" 7 "TS") "stage" =
        some (.str "WF_B") ∧
      jget (normalize_workflow_result (Json.obj [("foo", Json.num 1)]) "WF_B" 7 "TS")
        "product_type_id" = some (.num 7) ∧
      jget (normalize_workflow_result (Json.obj [("foo", Json.num 1)]) "WF_B" 7 "TS") "errors" =
        some (.arr [.obj [("code", .str "invalid_workflow_response")]])) ∧
    (∃ rms, normalize_workflow_result
        (Json.obj [("ok", Json.bool true), ("status", Json.str "success")]) "WF_B" 7 "TS" =
        .obj rms ∧
      ∀ k ∈ (["ok", "status", "stage", "product_type_id", "product_id", "metrics",
        "errors", "warnings", "timestamps"] : List String), hasKey rms k = true) :=
  ⟨(C8_normalize (Json.obj [("foo", Json.num 1)]) "WF_B" 7 "TS").1
      (by decide) (by decide) (by decide),
   (C8_normalize (Json.obj [("ok", Json.bool true), ("status", Json.str "success")])
      "WF_B" 7 "TS").2 [("ok", Json.bool true), ("status", Json.str "success")]
      (by decide) (by decide) (by decide)⟩

/-! ## C7: the state codec

The counterexample first; the serializer/parser roundtrip and the line
bookkeeping lemmas follow. -/

/-- C7: counterexample.  For the description `" autojp_state:x"` (a line
that only differs from a marker line by a leading space) and the state
`{"a": 1}`, the final `strip()` of `write_state_to_description` exposes
the bogus marker line, `read_state_from_description` picks it up first,
fails to decode `"x"` and returns `{}` — the round trip loses the state,
and the line is not preserved verbatim either. -/
theorem C7_counterexample :
    read_state_from_description
      (write_state_to_description " autojp_state:x" (Json.obj [("a", Json.num 1)])) ≠
      Json.obj [("a", Json.num 1)] := by
  decide

theorem char_toNat_ofNat (n : Nat) (h : n < 55296) : (Char.ofNat n).toNat = n := by
  unfold Char.ofNat
  rw [dif_pos (Or.inl h : Nat.isValidChar n)]
  rfl

theorem digitChar_toNat (d : Nat) (h : d < 10) : (digitChar d).toNat = 48 + d :=
  char_toNat_ofNat (48 + d) (by omega)

theorem digitsVal_append (ds : List Char) (d : Char) :
    digitsVal (ds ++ [d]) = 10 * digitsVal ds + (d.toNat - 48) := by
  simp [digitsVal, List.foldl_append]

/-- Digits produced with sufficient fuel: all decimal, nonempty, and
`digitsVal` recovers the number. -/
theorem natCharsGo_spec : ∀ fuel m, m ≤ fuel →
    (∀ c ∈ natCharsGo fuel m, 48 ≤ c.toNat ∧ c.toNat ≤ 57) ∧
    natCharsGo fuel m ≠ [] ∧ digitsVal (natCharsGo fuel m) = m := by
  intro fuel
  induction fuel with
  | zero =>
    intro m hm
    have : m = 0 := by omega
    subst this
    refine ⟨?_, by simp [natCharsGo], ?_⟩
    · intro c hc
      simp [natCharsGo] at hc
      subst hc
      rw [digitChar_toNat 0 (by omega)]
      omega
    · simp [natCharsGo, digitsVal, digitChar_toNat 0 (by omega)]
  | succ n ih =>
    intro m hm
    by_cases hlt : m < 10
    · refine ⟨?_, by simp [natCharsGo, hlt], ?_⟩
      · intro c hc
        simp [natCharsGo, hlt] at hc
        subst hc
        rw [digitChar_toNat m hlt]
        omega
      · simp [natCharsGo, hlt, digitsVal, digitChar_toNat m hlt]
    · have hdiv : m / 10 < m := Nat.div_lt_self (by omega) (by norm_num)
      have hih := ih (m / 10) (by omega)
      refine ⟨?_, ?_, ?_⟩
      · intro c hc
        simp only [natCharsGo, hlt, if_false, List.mem_append, List.mem_singleton] at hc
        rcases hc with hc | hc
        · exact hih.1 c hc
        · subst hc
          rw [digitChar_toNat (m % 10) (by omega)]
          omega
      · simp [natCharsGo, hlt]
      · simp only [natCharsGo, hlt, if_false]
        rw [digitsVal_append, hih.2.2, digitChar_toNat (m % 10) (by omega)]
        omega

theorem natChars_spec (m : Nat) :
    (∀ c ∈ natChars m, 48 ≤ c.toNat ∧ c.toNat ≤ 57) ∧
    natChars m ≠ [] ∧ digitsVal (natChars m) = m :=
  natCharsGo_spec m m le_rfl

theorem isDigitCh_of_bounds {c : Char} (h : 48 ≤ c.toNat ∧ c.toNat ≤ 57) :
    isDigitCh c = true := by
  simp [isDigitCh]
  omega

theorem takeWhile_append_of_all {p : Char → Bool} :
    ∀ (A rest : List Char), (∀ c ∈ A, p c = true) →
      (∀ c t, rest = c :: t → p c = false) →
      (A ++ rest).takeWhile p = A := by
  intro A
  induction A with
  | nil =>
    intro rest _ hrest
    cases rest with
    | nil => rfl
    | cons c t => simp [List.takeWhile_cons, hrest c t rfl]
  | cons a as ih =>
    intro rest hall hrest
    rw [List.cons_append, List.takeWhile_cons, hall a (by simp)]
    simp only [if_true, List.cons.injEq, true_and]
    exact ih rest (fun c hc => hall c (by simp [hc])) hrest

/-- `parseNatTok` recovers a serialized natural number before a non-digit
remainder. -/
theorem parseNatTok_natChars (m : Nat) (rest : List Char)
    (hrest : ∀ c t, rest = c :: t → isDigitCh c = false) :
    parseNatTok (natChars m ++ rest) = some (m, rest) := by
  obtain ⟨hall, hne, hval⟩ := natChars_spec m
  have htw : (natChars m ++ rest).takeWhile isDigitCh = natChars m :=
    takeWhile_append_of_all (natChars m) rest
      (fun c hc => isDigitCh_of_bounds (hall c hc)) hrest
  rw [parseNatTok]
  simp only [htw]
  rw [if_neg (by simpa [List.isEmpty_iff] using hne)]
  rw [hval, List.drop_left]

theorem hexVal_hexChar (d : Nat) (h : d < 16) : hexVal (hexChar d) = some d := by
  interval_cases d <;> decide

theorem char_ne_of_toNat_ne {c d : Char} (h : c.toNat ≠ d.toNat) : c ≠ d :=
  fun he => h (he ▸ rfl)

theorem psb_quote (rest : List Char) : parseStringBody ('"' :: rest) = some ([], rest) := by
  rw [parseStringBody.eq_def]; simp

theorem psb_plain {c : Char} (X : List Char) (h1 : ¬ c = '"') (h2 : ¬ c = '\\') :
    parseStringBody (c :: X) = (parseStringBody X).map (fun sr => (c :: sr.1, sr.2)) := by
  rw [parseStringBody.eq_def]; simp [h1, h2]

theorem psb_escQ (X : List Char) :
    parseStringBody ('\\' :: '"' :: X) = (parseStringBody X).map (fun sr => ('"' :: sr.1, sr.2)) := by
  rw [parseStringBody.eq_def]; simp

theorem psb_escBsl (X : List Char) :
    parseStringBody ('\\' :: '\\' :: X) = (parseStringBody X).map (fun sr => ('\\' :: sr.1, sr.2)) := by
  rw [parseStringBody.eq_def]; simp

theorem psb_escB (X : List Char) :
    parseStringBody ('\\' :: 'b' :: X) = (parseStringBody X).map (fun sr => ('\x08' :: sr.1, sr.2)) := by
  rw [parseStringBody.eq_def]; simp

theorem psb_escF (X : List Char) :
    parseStringBody ('\\' :: 'f' :: X) = (parseStringBody X).map (fun sr => ('\x0c' :: sr.1, sr.2)) := by
  rw [parseStringBody.eq_def]; simp

theorem psb_escN (X : List Char) :
    parseStringBody ('\\' :: 'n' :: X) = (parseStringBody X).map (fun sr => ('\n' :: sr.1, sr.2)) := by
  rw [parseStringBody.eq_def]; simp

theorem psb_escR (X : List Char) :
    parseStringBody ('\\' :: 'r' :: X) = (parseStringBody X).map (fun sr => ('\r' :: sr.1, sr.2)) := by
  rw [parseStringBody.eq_def]; simp

theorem psb_escT (X : List Char) :
    parseStringBody ('\\' :: 't' :: X) = (parseStringBody X).map (fun sr => ('\t' :: sr.1, sr.2)) := by
  rw [parseStringBody.eq_def]; simp

theorem psb_escU (h1 h2 h3 h4 : Char) (X : List Char) (v1 v2 v3 v4 : Nat)
    (e1 : hexVal h1 = some v1) (e2 : hexVal h2 = some v2)
    (e3 : hexVal h3 = some v3) (e4 : hexVal h4 = some v4) :
    parseStringBody ('\\' :: 'u' :: h1 :: h2 :: h3 :: h4 :: X) =
      (parseStringBody X).map
        (fun sr => (Char.ofNat (((v1 * 16 + v2) * 16 + v3) * 16 + v4) :: sr.1, sr.2)) := by
  rw [parseStringBody.eq_def]; simp [e1, e2, e3, e4]

/-- The escaped body of a string literal parses back to the original
characters, leaving the text after the closing quote untouched. -/
theorem parseStringBody_esc : ∀ (cs rest : List Char),
    parseStringBody (escChars cs ++ '"' :: rest) = some (cs, rest) := by
  intro cs
  induction cs with
  | nil => intro rest; simpa [escChars] using psb_quote rest
  | cons c cs ih =>
    intro rest
    rw [escChars, List.append_assoc]
    by_cases h1 : c = '"'
    · subst h1
      have he : escChar '"' = ['\\', '"'] := by simp [escChar]
      rw [he]
      simp only [List.cons_append, List.nil_append]
      rw [psb_escQ, ih rest]
      rfl
    · by_cases h2 : c = '\\'
      · subst h2
        have he : escChar '\\' = ['\\', '\\'] := by simp [escChar]
        rw [he]
        simp only [List.cons_append, List.nil_append]
        rw [psb_escBsl, ih rest]
        rfl
      · by_cases h3 : c.toNat < 32
        · by_cases e1 : c = '\x08'
          · subst e1
            have he : escChar '\x08' = ['\\', 'b'] := by simp [escChar]
            rw [he]
            simp only [List.cons_append, List.nil_append]
            rw [psb_escB, ih rest]
            rfl
          · by_cases e2 : c = '\t'
            · subst e2
              have he : escChar '\t' = ['\\', 't'] := by simp [escChar]
              rw [he]
              simp only [List.cons_append, List.nil_append]
              rw [psb_escT, ih rest]
              rfl
            · by_cases e3 : c = '\n'
              · subst e3
                have he : escChar '\n' = ['\\', 'n'] := by simp [escChar]
                rw [he]
                simp only [List.cons_append, List.nil_append]
                rw [psb_escN, ih rest]
                rfl
              · by_cases e4 : c = '\x0c'
                · subst e4
                  have he : escChar '\x0c' = ['\\', 'f'] := by simp [escChar]
                  rw [he]
                  simp only [List.cons_append, List.nil_append]
                  rw [psb_escF, ih rest]
                  rfl
                · by_cases e5 : c = '\r'
                  · subst e5
                    have he : escChar '\r' = ['\\', 'r'] := by simp [escChar]
                    rw [he]
                    simp only [List.cons_append, List.nil_append]
                    rw [psb_escR, ih rest]
                    rfl
                  · rw [escChar, if_neg h1, if_neg h2, if_pos h3, if_neg e1, if_neg e2,
                      if_neg e3, if_neg e4, if_neg e5]
                    have hhi : hexVal (hexChar (c.toNat / 16)) = some (c.toNat / 16) :=
                      hexVal_hexChar _ (by omega)
                    have hlo : hexVal (hexChar (c.toNat % 16)) = some (c.toNat % 16) :=
                      hexVal_hexChar _ (by omega)
                    simp only [List.cons_append, List.nil_append]
                    rw [psb_escU _ _ _ _ _ 0 0 (c.toNat / 16) (c.toNat % 16)
                      (by decide) (by decide) hhi hlo, ih rest]
                    have hval : c.toNat / 16 * 16 + c.toNat % 16 = c.toNat := by omega
                    simp [hval, Char.ofNat_toNat]
        · rw [escChar, if_neg h1, if_neg h2, if_neg h3]
          simp only [List.cons_append, List.nil_append]
          rw [psb_plain _ h1 h2, ih rest]
          rfl

/-! ## Parser-serializer roundtrip machinery -/

mutual
/-- Fuel sufficient for `parseVal` on the serialization of a value. -/
def needFuel : Json → Nat
  | .null => 1
  | .bool _ => 1
  | .num _ => 1
  | .str _ => 1
  | .arr es => needElems es + 1
  | .obj ms => needMembers ms + 1

/-- Fuel sufficient for `parseElems` on a serialized element list. -/
def needElems : List Json → Nat
  | [] => 0
  | e :: es => max (needFuel e) (needElems es) + 1

/-- Fuel sufficient for `parseMembers` on a serialized member list. -/
def needMembers : List (String × Json) → Nat
  | [] => 0
  | (_, v) :: ms => max (needFuel v) (needMembers ms) + 1
end

/-- The character that may legally follow a serialized value inside a
larger serialization: end of input, or a separator/closer. -/
def delimOKb : List Char → Bool
  | [] => true
  | c :: _ => c = ',' || c = ']' || c = '}'

theorem str_mk_toList (s : String) : String.mk s.toList = s := rfl

theorem pv_null (fuel : Nat) (r : List Char) :
    parseVal (fuel + 1) ('n' :: 'u' :: 'l' :: 'l' :: r) = some (.null, r) := rfl

theorem pv_true (fuel : Nat) (r : List Char) :
    parseVal (fuel + 1) ('t' :: 'r' :: 'u' :: 'e' :: r) = some (.bool true, r) := rfl

theorem pv_false (fuel : Nat) (r : List Char) :
    parseVal (fuel + 1) ('f' :: 'a' :: 'l' :: 's' :: 'e' :: r) = some (.bool false, r) := rfl

theorem pv_str (fuel : Nat) (r : List Char) :
    parseVal (fuel + 1) ('"' :: r) =
      (parseStringBody r).map fun sr => (.str (String.mk sr.1), sr.2) := rfl

theorem pv_arr (fuel : Nat) (r : List Char) :
    parseVal (fuel + 1) ('[' :: r) =
      (if startsRB r then some (.arr [], r.tail)
       else (parseElems fuel r).map fun er => (.arr er.1, er.2)) := rfl

theorem pv_obj (fuel : Nat) (r : List Char) :
    parseVal (fuel + 1) ('{' :: r) =
      (if startsCB r then some (.obj [], r.tail)
       else (parseMembers fuel r).map fun mr => (.obj mr.1, mr.2)) := rfl

theorem pv_neg (fuel : Nat) (r : List Char) :
    parseVal (fuel + 1) ('-' :: r) =
      (parseNatTok r).map fun nr => (.num (-(nr.1 : Int)), nr.2) := rfl

theorem pv_digit (fuel : Nat) (d : Char) (r : List Char)
    (h1 : ¬ d = 'n') (h2 : ¬ d = 't') (h3 : ¬ d = 'f') (h4 : ¬ d = '"')
    (h5 : ¬ d = '[') (h6 : ¬ d = '{') (h7 : ¬ d = '-') :
    parseVal (fuel + 1) (d :: r) =
      (if isDigitCh d then (parseNatTok (d :: r)).map fun nr => (.num (nr.1 : Int), nr.2)
       else none) := by
  have he : parseVal (fuel + 1) (d :: r) =
      (if d = 'n' then
        match r with
        | 'u' :: 'l' :: 'l' :: r2 => some (.null, r2)
        | _ => none
      else if d = 't' then
        match r with
        | 'r' :: 'u' :: 'e' :: r2 => some (.bool true, r2)
        | _ => none
      else if d = 'f' then
        match r with
        | 'a' :: 'l' :: 's' :: 'e' :: r2 => some (.bool false, r2)
        | _ => none
      else if d = '"' then
        (parseStringBody r).map fun sr => (.str (String.mk sr.1), sr.2)
      else if d = '[' then
        if startsRB r then some (.arr [], r.tail)
        else (parseElems fuel r).map fun er => (.arr er.1, er.2)
      else if d = '{' then
        if startsCB r then some (.obj [], r.tail)
        else (parseMembers fuel r).map fun mr => (.obj mr.1, mr.2)
      else if d = '-' then
        (parseNatTok r).map fun nr => (.num (-(nr.1 : Int)), nr.2)
      else if isDigitCh d then
        (parseNatTok (d :: r)).map fun nr => (.num (nr.1 : Int), nr.2)
      else none) := rfl
  rw [he, if_neg h1, if_neg h2, if_neg h3, if_neg h4, if_neg h5, if_neg h6, if_neg h7]

theorem pe_step (fuel : Nat) (cs : List Char) :
    parseElems (fuel + 1) cs =
      (match parseVal fuel cs with
       | none => none
       | some (v, r) =>
         match r with
         | ',' :: r2 => (parseElems fuel r2).map fun er => (v :: er.1, er.2)
         | ']' :: r2 => some ([v], r2)
         | _ => none) := rfl

theorem pe_comma (fuel : Nat) (cs : List Char) (v : Json) (r2 : List Char)
    (hv : parseVal fuel cs = some (v, ',' :: r2)) :
    parseElems (fuel + 1) cs = (parseElems fuel r2).map fun er => (v :: er.1, er.2) := by
  rw [pe_step, hv]
  rfl

theorem pe_close (fuel : Nat) (cs : List Char) (v : Json) (r2 : List Char)
    (hv : parseVal fuel cs = some (v, ']' :: r2)) :
    parseElems (fuel + 1) cs = some ([v], r2) := by
  rw [pe_step, hv]
  rfl

theorem pm_cons (fuel : Nat) (R : List Char) :
    parseMembers (fuel + 1) ('"' :: R) =
      (match parseStringBody R with
       | none => none
       | some (k, r1) =>
         match r1 with
         | ':' :: r2 =>
           (match parseVal fuel r2 with
            | none => none
            | some (v, r3) =>
              match r3 with
              | ',' :: r4 => (parseMembers fuel r4).map fun mr => ((String.mk k, v) :: mr.1, mr.2)
              | '}' :: r4 => some ([(String.mk k, v)], r4)
              | _ => none)
         | _ => none) := rfl

theorem pm_comma (fuel : Nat) (R kcs Z : List Char) (v : Json) (r4 : List Char)
    (hb : parseStringBody R = some (kcs, ':' :: Z))
    (hv : parseVal fuel Z = some (v, ',' :: r4)) :
    parseMembers (fuel + 1) ('"' :: R) =
      (parseMembers fuel r4).map fun mr => ((String.mk kcs, v) :: mr.1, mr.2) := by
  rw [pm_cons, hb]
  show (match parseVal fuel Z with
        | none => none
        | some (v, r3) =>
          match r3 with
          | ',' :: r4 => (parseMembers fuel r4).map
              fun (mr : List (String × Json) × List Char) => ((String.mk kcs, v) :: mr.1, mr.2)
          | '}' :: r4 => some ([(String.mk kcs, v)], r4)
          | _ => none) = _
  rw [hv]
  rfl

theorem pm_close (fuel : Nat) (R kcs Z : List Char) (v : Json) (r4 : List Char)
    (hb : parseStringBody R = some (kcs, ':' :: Z))
    (hv : parseVal fuel Z = some (v, '}' :: r4)) :
    parseMembers (fuel + 1) ('"' :: R) = some ([(String.mk kcs, v)], r4) := by
  rw [pm_cons, hb]
  show (match parseVal fuel Z with
        | none => none
        | some (v, r3) =>
          match r3 with
          | ',' :: r4 => (parseMembers fuel r4).map
              fun (mr : List (String × Json) × List Char) => ((String.mk kcs, v) :: mr.1, mr.2)
          | '}' :: r4 => some ([(String.mk kcs, v)], r4)
          | _ => none) = _
  rw [hv]
  rfl

theorem startsRB_cons (c : Char) (t : List Char) : startsRB (c :: t) = decide (c = ']') := rfl

theorem startsCB_cons (c : Char) (t : List Char) : startsCB (c :: t) = decide (c = '}') := rfl

theorem intChars_ne_nil (n : Int) : intChars n ≠ [] := by
  rw [intChars]
  split
  · simp
  · exact (natChars_spec n.toNat).2.1

theorem natChars_head (m : Nat) : ∃ d ds, natChars m = d :: ds := by
  cases h : natChars m with
  | nil => exact absurd h (natChars_spec m).2.1
  | cons d ds => exact ⟨d, ds, rfl⟩

/-- No serialization starts with `]`. -/
theorem startsRB_dumps (j : Json) (X : List Char) : startsRB (dumpsChars j ++ X) = false := by
  cases j with
  | null => rfl
  | bool b => cases b <;> rfl
  | num n =>
    show startsRB (intChars n ++ X) = false
    rw [intChars]
    split
    · rfl
    · obtain ⟨d, ds, hnc⟩ := natChars_head n.toNat
      have hdb := (natChars_spec n.toNat).1 d (by rw [hnc]; exact List.mem_cons_self _ _)
      rw [hnc, List.cons_append, startsRB_cons]
      simp only [decide_eq_false_iff_not]
      intro he
      subst he
      revert hdb
      decide
  | str s => rfl
  | arr es => rfl
  | obj ms => rfl

theorem dumpsObj_head (k : String) (v : Json) (ms : List (String × Json)) :
    ∃ T, dumpsObj ((k, v) :: ms) = '"' :: T := by
  cases ms with
  | nil =>
    refine ⟨escChars k.toList ++ '"' :: ':' :: dumpsChars v, ?_⟩
    rw [dumpsObj, strChars]
    simp
  | cons m ms =>
    refine ⟨escChars k.toList ++ '"' :: ':' :: dumpsChars v ++
      ',' :: dumpsObj (m :: ms), ?_⟩
    rw [dumpsObj, strChars]
    simp

/-- A serialized value followed by a legal delimiter parses back to itself,
for every sufficient fuel (mutually with element and member lists). -/
theorem parse_dumps : ∀ fuel : Nat,
    (∀ j rest, needFuel j ≤ fuel → delimOKb rest = true →
      parseVal fuel (dumpsChars j ++ rest) = some (j, rest)) ∧
    (∀ e es rest, needElems (e :: es) ≤ fuel → delimOKb rest = true →
      parseElems fuel (dumpsList (e :: es) ++ ']' :: rest) = some (e :: es, rest)) ∧
    (∀ k v ms rest, needMembers ((k, v) :: ms) ≤ fuel → delimOKb rest = true →
      parseMembers fuel (dumpsObj ((k, v) :: ms) ++ '}' :: rest) = some ((k, v) :: ms, rest)) := by
  intro fuel
  induction fuel with
  | zero =>
    refine ⟨?_, ?_, ?_⟩
    · intro j rest hf _
      cases j <;> simp [needFuel] at hf
    · intro e es rest hf _
      simp [needElems] at hf
    · intro k v ms rest hf _
      simp [needMembers] at hf
  | succ fuel ih =>
    obtain ⟨ihP, ihQ, ihR⟩ := ih
    have hdig : ∀ rest, delimOKb rest = true →
        ∀ (c : Char) (t : List Char), rest = c :: t → isDigitCh c = false := by
      intro rest hd c t hct
      subst hct
      simp only [delimOKb, Bool.or_eq_true, decide_eq_true_eq] at hd
      rcases hd with (h | h) | h <;> subst h <;> decide
    refine ⟨?_, ?_, ?_⟩
    · intro j rest hf hd
      cases j with
      | null => exact pv_null fuel rest
      | bool b =>
        cases b
        · exact pv_false fuel rest
        · exact pv_true fuel rest
      | num n =>
        by_cases hneg : n < 0
        · have hch : dumpsChars (.num n) = '-' :: natChars n.natAbs := by
            show intChars n = _
            rw [intChars, if_pos hneg]
          rw [hch, List.cons_append, pv_neg,
            parseNatTok_natChars n.natAbs rest (hdig rest hd)]
          simp only [Option.map_some']
          rw [show (-(n.natAbs : Int)) = n by omega]
        · obtain ⟨d, ds, hnc⟩ := natChars_head n.toNat
          have hdb := (natChars_spec n.toNat).1 d (by rw [hnc]; exact List.mem_cons_self _ _)
          have hch : dumpsChars (.num n) = d :: ds := by
            show intChars n = _
            rw [intChars, if_neg hneg, hnc]
          have hnch : ∀ (c : Char), c.toNat < 48 ∨ 57 < c.toNat → ¬ d = c := by
            intro c hc he
            subst he
            omega
          rw [hch, List.cons_append,
            pv_digit fuel d (ds ++ rest) (hnch 'n' (by decide)) (hnch 't' (by decide))
              (hnch 'f' (by decide)) (hnch '"' (by decide)) (hnch '[' (by decide))
              (hnch '{' (by decide)) (hnch '-' (by decide)),
            if_pos (isDigitCh_of_bounds hdb),
            show d :: (ds ++ rest) = natChars n.toNat ++ rest by rw [hnc]; rfl,
            parseNatTok_natChars n.toNat rest (hdig rest hd)]
          simp only [Option.map_some']
          rw [show ((n.toNat : Int)) = n by omega]
      | str s =>
        have hch : dumpsChars (.str s) ++ rest = '"' :: (escChars s.toList ++ '"' :: rest) := by
          show strChars s ++ rest = _
          rw [strChars]
          simp
        rw [hch, pv_str, parseStringBody_esc]
        rfl
      | arr es =>
        cases es with
        | nil => exact pv_arr fuel (']' :: rest)
        | cons e es =>
          have hfb : needElems (e :: es) ≤ fuel := by simp only [needFuel] at hf; omega
          have hch : dumpsChars (.arr (e :: es)) ++ rest =
              '[' :: (dumpsList (e :: es) ++ ']' :: rest) := by
            show ('[' :: (dumpsList (e :: es) ++ [']'])) ++ rest = _
            simp
          have hsrb : ¬ startsRB (dumpsList (e :: es) ++ ']' :: rest) = true := by
            obtain ⟨T, hT⟩ : ∃ T, dumpsList (e :: es) ++ ']' :: rest = dumpsChars e ++ T := by
              cases es with
              | nil => exact ⟨']' :: rest, by rw [dumpsList]⟩
              | cons f fs =>
                refine ⟨',' :: (dumpsList (f :: fs) ++ ']' :: rest), ?_⟩
                rw [dumpsList]
                simp
            rw [hT, startsRB_dumps]
            simp
          rw [hch, pv_arr, if_neg hsrb, ihQ e es rest hfb hd]
          rfl
      | obj ms =>
        cases ms with
        | nil => exact pv_obj fuel ('}' :: rest)
        | cons m ms =>
          obtain ⟨k, v⟩ := m
          have hfb : needMembers ((k, v) :: ms) ≤ fuel := by simp only [needFuel] at hf; omega
          have hch : dumpsChars (.obj ((k, v) :: ms)) ++ rest =
              '{' :: (dumpsObj ((k, v) :: ms) ++ '}' :: rest) := by
            show ('{' :: (dumpsObj ((k, v) :: ms) ++ ['}'])) ++ rest = _
            simp
          have hscb : ¬ startsCB (dumpsObj ((k, v) :: ms) ++ '}' :: rest) = true := by
            obtain ⟨T, hT⟩ := dumpsObj_head k v ms
            rw [hT, List.cons_append, startsCB_cons]
            decide
          rw [hch, pv_obj, if_neg hscb, ihR k v ms rest hfb hd]
          rfl
    · intro e es rest hf hd
      cases es with
      | nil =>
        have hfb : needFuel e ≤ fuel := by simp only [needElems] at hf; omega
        have hv := ihP e (']' :: rest) hfb rfl
        show parseElems (fuel + 1) (dumpsList [e] ++ ']' :: rest) = _
        rw [dumpsList]
        exact pe_close fuel _ e rest hv
      | cons f fs =>
        have hf2 : needFuel e ≤ fuel ∧ needElems (f :: fs) ≤ fuel := by
          rw [show needElems (e :: f :: fs) =
            max (needFuel e) (needElems (f :: fs)) + 1 from rfl] at hf
          omega
        have hv := ihP e (',' :: (dumpsList (f :: fs) ++ ']' :: rest)) hf2.1 rfl
        have hsh : dumpsList (e :: f :: fs) ++ ']' :: rest =
            dumpsChars e ++ (',' :: (dumpsList (f :: fs) ++ ']' :: rest)) := by
          rw [dumpsList]
          simp
        rw [hsh, pe_comma fuel _ e _ hv, ihQ f fs rest hf2.2 hd]
        rfl
    · intro k v ms rest hf hd
      cases ms with
      | nil =>
        have hfb : needFuel v ≤ fuel := by simp only [needMembers] at hf; omega
        have hv := ihP v ('}' :: rest) hfb rfl
        have hb := parseStringBody_esc k.toList (':' :: (dumpsChars v ++ '}' :: rest))
        have hsh : dumpsObj [(k, v)] ++ '}' :: rest =
            '"' :: (escChars k.toList ++ '"' :: (':' :: (dumpsChars v ++ '}' :: rest))) := by
          rw [dumpsObj, strChars]
          simp
        rw [hsh, pm_close fuel _ k.toList _ v rest hb hv]
        rfl
      | cons m ms =>
        obtain ⟨k2, v2⟩ := m
        have hf2 : needFuel v ≤ fuel ∧ needMembers ((k2, v2) :: ms) ≤ fuel := by
          rw [show needMembers ((k, v) :: (k2, v2) :: ms) =
            max (needFuel v) (needMembers ((k2, v2) :: ms)) + 1 from rfl] at hf
          omega
        have hv := ihP v (',' :: (dumpsObj ((k2, v2) :: ms) ++ '}' :: rest)) hf2.1 rfl
        have hb := parseStringBody_esc k.toList
          (':' :: (dumpsChars v ++ ',' :: (dumpsObj ((k2, v2) :: ms) ++ '}' :: rest)))
        have hsh : dumpsObj ((k, v) :: (k2, v2) :: ms) ++ '}' :: rest =
            '"' :: (escChars k.toList ++ '"' ::
              (':' :: (dumpsChars v ++ ',' :: (dumpsObj ((k2, v2) :: ms) ++ '}' :: rest)))) := by
          rw [dumpsObj, strChars]
          simp
        rw [hsh, pm_comma fuel _ k.toList _ v _ hb hv, ihR k2 v2 ms rest hf2.2 hd]
        rfl

theorem psl_nl (t : List Char) : pySplitlinesL ('\n' :: t) = [] :: pySplitlinesL t := rfl

theorem psl_cons (c : Char) (t : List Char) (h : termCh c = false) :
    pySplitlinesL (c :: t) =
      (match pySplitlinesL t with
       | [] => [[c]]
       | l :: ls => (c :: l) :: ls) := by
  rw [pySplitlinesL.eq_def]
  split
  · simp_all
  · next heq =>
    rw [List.cons.injEq] at heq
    rw [heq.1] at h
    simp [termCh] at h
  · next c' rest hne heq =>
    rw [List.cons.injEq] at heq
    rw [heq.1, heq.2, if_neg (by simp [← heq.1, h])]

theorem splitlines_single : ∀ (m : List Char), m ≠ [] → (∀ c ∈ m, termCh c = false) →
    pySplitlinesL m = [m] := by
  intro m
  induction m with
  | nil => intro h; exact absurd rfl h
  | cons c t ih =>
    intro _ htf
    rw [psl_cons c t (htf c (by simp))]
    cases t with
    | nil => rfl
    | cons d u => rw [ih (by simp) (fun x hx => htf x (by simp [hx]))]

theorem splitlines_line (l : List Char) (hl : ∀ c ∈ l, termCh c = false) (cs : List Char) :
    pySplitlinesL (l ++ '\n' :: cs) = l :: pySplitlinesL cs := by
  induction l with
  | nil => exact psl_nl cs
  | cons c t ih =>
    rw [List.cons_append, psl_cons c _ (hl c (by simp)),
      ih (fun x hx => hl x (by simp [hx]))]

theorem splitlines_joinNL : ∀ (L : List (List Char)) (m : List Char),
    (∀ l ∈ L, ∀ c ∈ l, termCh c = false) → (∀ c ∈ m, termCh c = false) → m ≠ [] →
    pySplitlinesL (joinNL (L ++ [m])) = L ++ [m] := by
  intro L
  induction L with
  | nil =>
    intro m _ htm hm
    simpa [joinNL] using splitlines_single m hm htm
  | cons l K ih =>
    intro m htL htm hm
    cases hK : K ++ [m] with
    | nil => simp at hK
    | cons x xs =>
      rw [List.cons_append, hK,
        show joinNL (l :: x :: xs) = l ++ '\n' :: joinNL (x :: xs) from rfl,
        splitlines_line l (htL l (by simp)) _, ← hK,
        ih m (fun l' hl' => htL l' (by simp [hl'])) htm hm]

theorem psl_term (c : Char) (t : List Char) (h : termCh c = true)
    (hne : ∀ u, c = '\r' → t = '\n' :: u → False) :
    pySplitlinesL (c :: t) = [] :: pySplitlinesL t := by
  rw [pySplitlinesL.eq_def]
  split
  · simp_all
  · next heq =>
    rw [List.cons.injEq] at heq
    exact absurd trivial (fun _ => hne _ heq.1 heq.2)
  · next c' rest hne2 heq =>
    rw [List.cons.injEq] at heq
    rw [← heq.1, ← heq.2, if_pos h]

theorem splitlines_termfree : ∀ (cs : List Char), ∀ l ∈ pySplitlinesL cs, ∀ c ∈ l,
    termCh c = false := by
  intro cs
  induction cs using pySplitlinesL.induct with
  | case1 => simp [pySplitlinesL]
  | case2 t ih =>
    intro l hl
    rw [show pySplitlinesL ('\r' :: '\n' :: t) = [] :: pySplitlinesL t from rfl] at hl
    rcases List.mem_cons.mp hl with h | h
    · subst h; simp
    · exact ih l h
  | case3 c t hne hc ih =>
    intro l hl
    rw [psl_term c t hc hne] at hl
    rcases List.mem_cons.mp hl with h | h
    · subst h; simp
    · exact ih l h
  | case4 c rest hne hc hpsl ih =>
    intro l hl
    rw [psl_cons c rest (by simpa using hc), hpsl] at hl
    rcases List.mem_cons.mp hl with h | h
    · subst h
      intro x hx
      rcases List.mem_singleton.mp hx with h2
      subst h2
      simpa using hc
    · simp at h
  | case5 c rest hne hc l0 ls0 hpsl ih =>
    intro l hl
    rw [psl_cons c rest (by simpa using hc), hpsl] at hl
    rcases List.mem_cons.mp hl with h | h
    · subst h
      intro x hx
      rcases List.mem_cons.mp hx with h2 | h2
      · subst h2
        simpa using hc
      · exact ih l0 (by rw [hpsl]; simp) x h2
    · intro x hx
      exact ih l (by rw [hpsl]; simp [h]) x hx

theorem stripL_noop (l : List Char)
    (hh : ∀ c t, l = c :: t → wsCh c = false)
    (hl : ∀ c, l.getLast? = some c → wsCh c = false) : stripL l = l := by
  rw [stripL]
  cases l with
  | nil => rfl
  | cons c t =>
    rw [List.dropWhile_cons_of_neg (by simp [hh c t rfl])]
    cases hg : (c :: t).getLast? with
    | none => simp at hg
    | some d =>
      have hd : wsCh d = false := hl d hg
      cases hr : (c :: t).reverse with
      | nil => simp at hr
      | cons e u =>
        have he : e = d := by
          have h2 := List.head?_reverse (c :: t)
          rw [hr, hg] at h2
          simpa using h2
        subst he
        rw [List.dropWhile_cons_of_neg (by simp [hd]), ← hr, List.reverse_reverse]

theorem natChars_last (x : Nat) :
    ∃ c, (natChars x).getLast? = some c ∧ wsCh c = false := by
  have hne := (natChars_spec x).2.1
  refine ⟨(natChars x).getLast hne, List.getLast?_eq_getLast _ hne, ?_⟩
  have hb := (natChars_spec x).1 _ (List.getLast_mem hne)
  simp only [wsCh, decide_eq_false_iff_not]
  omega

theorem dumps_head (j : Json) : ∃ c t, dumpsChars j = c :: t ∧ wsCh c = false := by
  cases j with
  | null => exact ⟨'n', _, rfl, by decide⟩
  | bool b =>
    cases b
    · exact ⟨'f', _, rfl, by decide⟩
    · exact ⟨'t', _, rfl, by decide⟩
  | num n =>
    show ∃ c t, intChars n = c :: t ∧ _
    rw [intChars]
    split
    · exact ⟨'-', _, rfl, by decide⟩
    · obtain ⟨d, ds, hnc⟩ := natChars_head n.toNat
      have hdb := (natChars_spec n.toNat).1 d (by rw [hnc]; exact List.mem_cons_self _ _)
      refine ⟨d, ds, hnc, ?_⟩
      simp only [wsCh, decide_eq_false_iff_not]
      omega
  | str s => exact ⟨'"', _, rfl, by decide⟩
  | arr es => exact ⟨'[', _, rfl, by decide⟩
  | obj ms => exact ⟨'{', _, rfl, by decide⟩

theorem dumps_last (j : Json) : ∃ c, (dumpsChars j).getLast? = some c ∧ wsCh c = false := by
  cases j with
  | null => exact ⟨'l', by decide, by decide⟩
  | bool b =>
    cases b
    · exact ⟨'e', by decide, by decide⟩
    · exact ⟨'e', by decide, by decide⟩
  | num n =>
    show ∃ c, (intChars n).getLast? = some c ∧ _
    rw [intChars]
    split
    · obtain ⟨c, hc, hw⟩ := natChars_last n.natAbs
      refine ⟨c, ?_, hw⟩
      rw [show ('-' :: natChars n.natAbs) = ['-'] ++ natChars n.natAbs from rfl,
        List.getLast?_append, hc]
      rfl
    · exact natChars_last n.toNat
  | str s =>
    refine ⟨'"', ?_, by decide⟩
    show ('"' :: (escChars s.toList ++ ['"'])).getLast? = _
    rw [show ('"' :: (escChars s.toList ++ ['"'])) = ('"' :: escChars s.toList) ++ ['"'] from by
        simp, List.getLast?_concat]
  | arr es =>
    refine ⟨']', ?_, by decide⟩
    show ('[' :: (dumpsList es ++ [']'])).getLast? = _
    rw [show ('[' :: (dumpsList es ++ [']'])) = ('[' :: dumpsList es) ++ [']'] from by simp,
      List.getLast?_concat]
  | obj ms =>
    refine ⟨'}', ?_, by decide⟩
    show ('{' :: (dumpsObj ms ++ ['}'])).getLast? = _
    rw [show ('{' :: (dumpsObj ms ++ ['}'])) = ('{' :: dumpsObj ms) ++ ['}'] from by simp,
      List.getLast?_concat]

/-- No U+0085/U+2028/U+2029 in the string: the characters the serializer
emits raw that `str.splitlines` would nevertheless treat as terminators. -/
def hiTermFree (s : String) : Bool :=
  s.toList.all fun c => ! (c.toNat = 133 || c.toNat = 8232 || c.toNat = 8233)

mutual
/-- All strings of the value (keys included) are `hiTermFree`. -/
def jsonLsFree : Json → Bool
  | .null => true
  | .bool _ => true
  | .num _ => true
  | .str s => hiTermFree s
  | .arr es => jsonLsFreeL es
  | .obj ms => jsonLsFreeO ms

def jsonLsFreeL : List Json → Bool
  | [] => true
  | e :: es => jsonLsFree e && jsonLsFreeL es

def jsonLsFreeO : List (String × Json) → Bool
  | [] => true
  | (k, v) :: ms => hiTermFree k && jsonLsFree v && jsonLsFreeO ms
end

theorem jsonLsFreeL_mem : ∀ (es : List Json), jsonLsFreeL es = true →
    ∀ e ∈ es, jsonLsFree e = true := by
  intro es
  induction es with
  | nil => simp
  | cons e es ih =>
    intro h x hx
    rw [show jsonLsFreeL (e :: es) = (jsonLsFree e && jsonLsFreeL es) from rfl,
      Bool.and_eq_true] at h
    rcases List.mem_cons.mp hx with h2 | h2
    · exact h2 ▸ h.1
    · exact ih h.2 x h2

theorem jsonLsFreeO_mem : ∀ (ms : List (String × Json)), jsonLsFreeO ms = true →
    ∀ kv ∈ ms, hiTermFree kv.1 = true ∧ jsonLsFree kv.2 = true := by
  intro ms
  induction ms with
  | nil => simp
  | cons m ms ih =>
    obtain ⟨k, v⟩ := m
    intro h x hx
    rw [show jsonLsFreeO ((k, v) :: ms) = (hiTermFree k && jsonLsFree v && jsonLsFreeO ms)
      from rfl, Bool.and_eq_true, Bool.and_eq_true] at h
    rcases List.mem_cons.mp hx with h2 | h2
    · exact h2 ▸ ⟨h.1.1, h.1.2⟩
    · exact ih h.2 x h2

theorem hexChar_range (d : Nat) (h : d < 16) :
    48 ≤ (hexChar d).toNat ∧ (hexChar d).toNat ≤ 102 := by
  interval_cases d <;> decide

theorem escChar_termfree (c : Char)
    (h : ¬(c.toNat = 133 ∨ c.toNat = 8232 ∨ c.toNat = 8233)) :
    ∀ x ∈ escChar c, termCh x = false := by
  intro x hx
  by_cases h1 : c = '"'
  · subst h1; simp [escChar] at hx; rcases hx with h2 | h2 <;> subst h2 <;> decide
  · by_cases h2 : c = '\\'
    · subst h2; simp [escChar] at hx; subst hx; decide
    · by_cases h3 : c.toNat < 32
      · by_cases e1 : c = '\x08'
        · subst e1; simp [escChar] at hx; rcases hx with h4 | h4 <;> subst h4 <;> decide
        · by_cases e2 : c = '\t'
          · subst e2; simp [escChar] at hx; rcases hx with h4 | h4 <;> subst h4 <;> decide
          · by_cases e3 : c = '\n'
            · subst e3; simp [escChar] at hx; rcases hx with h4 | h4 <;> subst h4 <;> decide
            · by_cases e4 : c = '\x0c'
              · subst e4; simp [escChar] at hx; rcases hx with h4 | h4 <;> subst h4 <;> decide
              · by_cases e5 : c = '\r'
                · subst e5; simp [escChar] at hx
                  rcases hx with h4 | h4 <;> subst h4 <;> decide
                · rw [escChar, if_neg h1, if_neg h2, if_pos h3, if_neg e1, if_neg e2,
                    if_neg e3, if_neg e4, if_neg e5] at hx
                  simp at hx
                  rcases hx with h4 | h4 | h4 | h4 | h4
                  · subst h4; decide
                  · subst h4; decide
                  · subst h4; decide
                  · have hr := hexChar_range (c.toNat / 16) (by omega)
                    subst h4
                    simp only [termCh, decide_eq_false_iff_not]
                    omega
                  · have hr := hexChar_range (c.toNat % 16) (by omega)
                    subst h4
                    simp only [termCh, decide_eq_false_iff_not]
                    omega
      · rw [escChar, if_neg h1, if_neg h2, if_neg h3] at hx
        simp at hx
        subst hx
        simp only [termCh, decide_eq_false_iff_not]
        omega

theorem escChars_termfree : ∀ (cs : List Char),
    (∀ c ∈ cs, ¬(c.toNat = 133 ∨ c.toNat = 8232 ∨ c.toNat = 8233)) →
    ∀ x ∈ escChars cs, termCh x = false := by
  intro cs
  induction cs with
  | nil => simp [escChars]
  | cons c cs ih =>
    intro h x hx
    rw [escChars] at hx
    rcases List.mem_append.mp hx with h2 | h2
    · exact escChar_termfree c (h c (by simp)) x h2
    · exact ih (fun d hd => h d (by simp [hd])) x h2

theorem strChars_termfree (s : String) (h : hiTermFree s = true) :
    ∀ x ∈ strChars s, termCh x = false := by
  intro x hx
  rw [strChars] at hx
  rw [hiTermFree, List.all_eq_true] at h
  rcases List.mem_cons.mp hx with h2 | h2
  · subst h2; decide
  · rcases List.mem_append.mp h2 with h3 | h3
    · refine escChars_termfree s.toList (fun c hc => ?_) x h3
      have := h c hc
      simp only [Bool.not_eq_eq_eq_not, Bool.not_true, Bool.or_eq_false_iff,
        decide_eq_false_iff_not] at this
      tauto
    · rcases List.mem_singleton.mp h3 with h4
      subst h4
      decide

theorem natChars_termfree (x : Nat) : ∀ c ∈ natChars x, termCh c = false := by
  intro c hc
  have hb := (natChars_spec x).1 c hc
  simp only [termCh, decide_eq_false_iff_not]
  omega

theorem intChars_termfree (n : Int) : ∀ c ∈ intChars n, termCh c = false := by
  intro c hc
  rw [intChars] at hc
  split at hc
  · rcases List.mem_cons.mp hc with h | h
    · subst h; decide
    · exact natChars_termfree n.natAbs c h
  · exact natChars_termfree n.toNat c hc

theorem dumpsList_termfree (es : List Json)
    (h : ∀ e ∈ es, ∀ x ∈ dumpsChars e, termCh x = false) :
    ∀ x ∈ dumpsList es, termCh x = false := by
  induction es with
  | nil => simp [dumpsList]
  | cons e es ih =>
    cases es with
    | nil =>
      intro x hx
      rw [show dumpsList [e] = dumpsChars e from rfl] at hx
      exact h e (by simp) x hx
    | cons f fs =>
      intro x hx
      rw [show dumpsList (e :: f :: fs) = dumpsChars e ++ ',' :: dumpsList (f :: fs) from rfl]
        at hx
      rcases List.mem_append.mp hx with h2 | h2
      · exact h e (by simp) x h2
      · rcases List.mem_cons.mp h2 with h3 | h3
        · subst h3; decide
        · exact ih (fun e' he' => h e' (by simp [he'])) x h3

theorem dumpsObj_termfree (ms : List (String × Json))
    (hks : ∀ kv ∈ ms, hiTermFree kv.1 = true)
    (h : ∀ kv ∈ ms, ∀ x ∈ dumpsChars kv.2, termCh x = false) :
    ∀ x ∈ dumpsObj ms, termCh x = false := by
  induction ms with
  | nil => simp [dumpsObj]
  | cons m ms ih =>
    obtain ⟨k, v⟩ := m
    cases ms with
    | nil =>
      intro x hx
      rw [show dumpsObj [(k, v)] = strChars k ++ ':' :: dumpsChars v from rfl] at hx
      rcases List.mem_append.mp hx with h2 | h2
      · exact strChars_termfree k (hks (k, v) (by simp)) x h2
      · rcases List.mem_cons.mp h2 with h3 | h3
        · subst h3; decide
        · exact h (k, v) (by simp) x h3
    | cons m2 ms2 =>
      intro x hx
      rw [show dumpsObj ((k, v) :: m2 :: ms2) =
        (strChars k ++ ':' :: dumpsChars v) ++ ',' :: dumpsObj (m2 :: ms2) from rfl] at hx
      rcases List.mem_append.mp hx with h2 | h2
      · rcases List.mem_append.mp h2 with h3 | h3
        · exact strChars_termfree k (hks (k, v) (by simp)) x h3
        · rcases List.mem_cons.mp h3 with h4 | h4
          · subst h4; decide
          · exact h (k, v) (by simp) x h4
      · rcases List.mem_cons.mp h2 with h3 | h3
        · subst h3; decide
        · exact ih (fun kv hkv => hks kv (by simp [hkv]))
            (fun kv hkv => h kv (by simp [hkv])) x h3

theorem dumps_termfree : ∀ (j : Json), jsonLsFree j = true →
    ∀ x ∈ dumpsChars j, termCh x = false := by
  intro j
  induction j using Json.indOn with
  | hnull => intro _; decide
  | hbool b => cases b <;> intro _ <;> decide
  | hnum n => intro _; exact intChars_termfree n
  | hstr s => intro h; exact strChars_termfree s h
  | harr es ih =>
    intro h x hx
    have hfL : jsonLsFreeL es = true := h
    rw [show dumpsChars (.arr es) = '[' :: (dumpsList es ++ [']']) from rfl] at hx
    rcases List.mem_cons.mp hx with h2 | h2
    · subst h2; decide
    · rcases List.mem_append.mp h2 with h3 | h3
      · exact dumpsList_termfree es (fun e he => ih e he (jsonLsFreeL_mem es hfL e he)) x h3
      · rcases List.mem_singleton.mp h3 with h4
        subst h4
        decide
  | hobj ms ih =>
    intro h x hx
    have hfO : jsonLsFreeO ms = true := h
    rw [show dumpsChars (.obj ms) = '{' :: (dumpsObj ms ++ ['}']) from rfl] at hx
    rcases List.mem_cons.mp hx with h2 | h2
    · subst h2; decide
    · rcases List.mem_append.mp h2 with h3 | h3
      · refine dumpsObj_termfree ms (fun kv hkv => (jsonLsFreeO_mem ms hfO kv hkv).1)
          (fun kv hkv => ih kv hkv (jsonLsFreeO_mem ms hfO kv hkv).2) x h3
      · rcases List.mem_singleton.mp h3 with h4
        subst h4
        decide

theorem needElems_le (es : List Json) (ih : ∀ j ∈ es, needFuel j ≤ (dumpsChars j).length) :
    needElems es ≤ (dumpsList es).length + 1 := by
  induction es with
  | nil => simp [needElems]
  | cons e es ihe =>
    have h1 := ih e (List.mem_cons_self _ _)
    have h2 := ihe (fun j hj => ih j (List.mem_cons_of_mem _ hj))
    cases es with
    | nil =>
      rw [show needElems [e] = max (needFuel e) (needElems []) + 1 from rfl,
        show needElems ([] : List Json) = 0 from rfl,
        show dumpsList [e] = dumpsChars e from rfl]
      omega
    | cons f fs =>
      rw [show needElems (e :: f :: fs) = max (needFuel e) (needElems (f :: fs)) + 1 from rfl,
        show dumpsList (e :: f :: fs) = dumpsChars e ++ ',' :: dumpsList (f :: fs) from rfl]
      rw [show needElems (f :: fs) = max (needFuel f) (needElems fs) + 1 from rfl] at h2 ⊢
      simp only [List.length_append, List.length_cons]
      omega

theorem needMembers_le (ms : List (String × Json))
    (ih : ∀ kv ∈ ms, needFuel kv.2 ≤ (dumpsChars kv.2).length) :
    needMembers ms ≤ (dumpsObj ms).length + 1 := by
  induction ms with
  | nil => simp [needMembers]
  | cons m ms ihm =>
    obtain ⟨k, v⟩ := m
    have h1 : needFuel v ≤ (dumpsChars v).length := ih (k, v) (List.mem_cons_self _ _)
    have h2 := ihm (fun kv hkv => ih kv (List.mem_cons_of_mem _ hkv))
    cases ms with
    | nil =>
      rw [show needMembers [(k, v)] = max (needFuel v) (needMembers []) + 1 from rfl,
        show needMembers ([] : List (String × Json)) = 0 from rfl,
        show dumpsObj [(k, v)] = strChars k ++ ':' :: dumpsChars v from rfl]
      simp only [List.length_append, List.length_cons]
      omega
    | cons m2 ms2 =>
      rw [show needMembers ((k, v) :: m2 :: ms2) =
          max (needFuel v) (needMembers (m2 :: ms2)) + 1 from rfl,
        show dumpsObj ((k, v) :: m2 :: ms2) =
          (strChars k ++ ':' :: dumpsChars v) ++ ',' :: dumpsObj (m2 :: ms2) from rfl]
      simp only [List.length_append, List.length_cons]
      omega

theorem needFuel_le (j : Json) : needFuel j ≤ (dumpsChars j).length := by
  induction j using Json.indOn with
  | hnull => decide
  | hbool b => cases b <;> decide
  | hnum n =>
    show 1 ≤ (intChars n).length
    rw [Nat.succ_le_iff, List.length_pos]
    exact intChars_ne_nil n
  | hstr s =>
    show 1 ≤ (strChars s).length
    rw [strChars]
    simp
  | harr es ih =>
    show needElems es + 1 ≤ ('[' :: (dumpsList es ++ [']'])).length
    have := needElems_le es ih
    simp only [List.length_cons, List.length_append, List.length_singleton]
    omega
  | hobj ms ih =>
    show needMembers ms + 1 ≤ ('{' :: (dumpsObj ms ++ ['}'])).length
    have := needMembers_le ms ih
    simp only [List.length_cons, List.length_append, List.length_singleton]
    omega

/-- The compact serialization of a value decodes back to it (`json.loads`
of `json.dumps`). -/
theorem loadsL_dumps (j : Json) : loadsL (dumpsChars j) = some j := by
  rw [loadsL]
  have h := (parse_dumps ((dumpsChars j).length + 1)).1 j []
    (le_trans (needFuel_le j) (Nat.le_succ _)) rfl
  rw [List.append_nil] at h
  rw [h]

/-- The lines of the description that `write_state_to_description` keeps:
those not starting with the marker. -/
def keptLines (d : String) : List (List Char) :=
  (pySplitlinesL d.toList).filter fun l => ! List.isPrefixOf STATE_MARKER l

/-- The kept lines do not start with stripped whitespace: either there are
none, or the first one begins with a non-whitespace character. -/
def goodLeadB : List (List Char) → Bool
  | [] => true
  | [] :: _ => false
  | (c :: _) :: _ => ! wsCh c

theorem joinNL_last (X : List (List Char)) (m : List Char) (c : Char)
    (hm : m.getLast? = some c) : (joinNL (X ++ [m])).getLast? = some c := by
  induction X with
  | nil => simpa [joinNL] using hm
  | cons l K ih =>
    cases hK : K ++ [m] with
    | nil => simp at hK
    | cons x xs =>
      rw [List.cons_append, hK,
        show joinNL (l :: x :: xs) = l ++ '\n' :: joinNL (x :: xs) from rfl,
        List.getLast?_append]
      have h2 : ('\n' :: joinNL (x :: xs)).getLast? = some c := by
        rw [show ('\n' :: joinNL (x :: xs)) = ['\n'] ++ joinNL (x :: xs) from rfl,
          List.getLast?_append, ← hK, ih]
        rfl
      rw [h2]
      rfl

theorem find?_append_none {α : Type} (p : α → Bool) (A B : List α) (h : A.find? p = none) :
    (A ++ B).find? p = B.find? p := by
  rw [List.find?_append, h]
  rfl

/-- C7: amended.  `write_state_to_description` splits the description into
lines, keeps those not starting with the marker, and appends a single
marker line holding the compact serialization; `strip()` of the result and
the decoder's `strip()` are both no-ops provided the kept lines do not
start with whitespace (`goodLeadB`) and the state's strings contain none of
U+0085/U+2028/U+2029 (`jsonLsFree`).  Under those two conditions the
written description consists of exactly the kept lines of `d`, verbatim
and in order, followed by the single marker line, and
`read_state_from_description` recovers the state exactly. -/
theorem C7_amended (d : String) (st : Json)
    (hlead : goodLeadB (keptLines d) = true)
    (hfree : jsonLsFree st = true) :
    pySplitlinesL (write_state_to_description d st).toList =
      keptLines d ++ [STATE_MARKER ++ dumpsChars st] ∧
    read_state_from_description (write_state_to_description d st) = st := by
  have htm : ∀ c ∈ STATE_MARKER ++ dumpsChars st, termCh c = false := by
    intro c hc
    rcases List.mem_append.mp hc with h | h
    · have hSM : STATE_MARKER = ['a', 'u', 't', 'o', 'j', 'p', '_', 's', 't', 'a', 't', 'e',
        ':'] := rfl
      rw [hSM] at h
      fin_cases h <;> decide
    · exact dumps_termfree st hfree c h
  have htkept : ∀ l ∈ keptLines d, ∀ c ∈ l, termCh c = false := by
    intro l hl
    exact splitlines_termfree d.toList l (List.mem_filter.mp hl).1
  have hmne : STATE_MARKER ++ dumpsChars st ≠ [] := by
    intro habs
    have := congrArg List.length habs
    simp only [List.length_append, List.length_nil] at this
    have h13 : STATE_MARKER.length = 13 := rfl
    omega
  have hsplit := splitlines_joinNL (keptLines d) (STATE_MARKER ++ dumpsChars st)
    htkept htm hmne
  obtain ⟨cl, hcl, hclw⟩ := dumps_last st
  have hml : (STATE_MARKER ++ dumpsChars st).getLast? = some cl := by
    rw [List.getLast?_append, hcl]
    rfl
  have hlastJ : ∀ c, (joinNL (keptLines d ++ [STATE_MARKER ++ dumpsChars st])).getLast? =
      some c → wsCh c = false := by
    intro c hc
    rw [joinNL_last (keptLines d) _ cl hml] at hc
    injection hc with h
    rw [← h]
    exact hclw
  have hheadJ : ∀ c t, joinNL (keptLines d ++ [STATE_MARKER ++ dumpsChars st]) = c :: t →
      wsCh c = false := by
    intro c t hct
    cases hkl : keptLines d with
    | nil =>
      rw [hkl] at hct
      rw [show (([] : List (List Char)) ++ [STATE_MARKER ++ dumpsChars st]) =
          [STATE_MARKER ++ dumpsChars st] from rfl,
        show joinNL [STATE_MARKER ++ dumpsChars st] = STATE_MARKER ++ dumpsChars st from rfl,
        show STATE_MARKER ++ dumpsChars st =
          'a' :: ("utojp_state:".toList ++ dumpsChars st) from rfl] at hct
      rw [List.cons.injEq] at hct
      rw [← hct.1]
      decide
    | cons l K =>
      rw [hkl] at hct hlead
      cases l with
      | nil => simp [goodLeadB] at hlead
      | cons c0 t0 =>
        have hw : wsCh c0 = false := by simpa [goodLeadB] using hlead
        cases hK : K ++ [STATE_MARKER ++ dumpsChars st] with
        | nil => simp at hK
        | cons x xs =>
          rw [List.cons_append, hK,
            show joinNL ((c0 :: t0) :: x :: xs) = (c0 :: t0) ++ '\n' :: joinNL (x :: xs)
              from rfl, List.cons_append, List.cons.injEq] at hct
          rw [← hct.1]
          exact hw
  have hstrip := stripL_noop _ hheadJ hlastJ
  have hwrite : write_state_to_description d st =
      String.mk (joinNL (keptLines d ++ [STATE_MARKER ++ dumpsChars st])) := by
    show String.mk (stripL (joinNL (keptLines d ++ [STATE_MARKER ++ dumpsChars st]))) = _
    rw [hstrip]
  have hpart1 : pySplitlinesL (write_state_to_description d st).toList =
      keptLines d ++ [STATE_MARKER ++ dumpsChars st] := by
    rw [hwrite]
    exact hsplit
  refine ⟨hpart1, ?_⟩
  have hfind : (pySplitlinesL (write_state_to_description d st).toList).find?
      (fun l => List.isPrefixOf STATE_MARKER l) = some (STATE_MARKER ++ dumpsChars st) := by
    rw [hpart1, find?_append_none _ _ _ ?hnone, List.find?_cons_of_pos]
    · exact List.isPrefixOf_iff_prefix.mpr (List.prefix_append _ _)
    case hnone =>
      rw [List.find?_eq_none]
      intro l hl
      have := (List.mem_filter.mp hl).2
      simp only [Bool.not_eq_eq_eq_not, Bool.not_true] at this
      simp [this]
  rw [read_state_from_description, hfind]
  show (loadsL (stripL (List.drop STATE_MARKER.length (STATE_MARKER ++ dumpsChars st)))).getD
    (Json.obj []) = st
  rw [List.drop_left]
  obtain ⟨ch, th, hch, hchw⟩ := dumps_head st
  have hh2 : ∀ c t, dumpsChars st = c :: t → wsCh c = false := by
    intro c t hct
    rw [hct] at hch
    rw [List.cons.injEq] at hch
    rw [hch.1]
    exact hchw
  have hl2 : ∀ c, (dumpsChars st).getLast? = some c → wsCh c = false := by
    intro c hc
    rw [hcl] at hc
    injection hc with h
    rw [← h]
    exact hclw
  rw [stripL_noop _ hh2 hl2, loadsL_dumps]
  rfl

theorem C7_amended_witness :
    goodLeadB (keptLines "hello world\nautojp_state:old\nnotes") = true ∧
    jsonLsFree (Json.obj [("a", Json.num 1)]) = true ∧
    (pySplitlinesL (write_state_to_description "hello world\nautojp_state:old\nnotes"
        (Json.obj [("a", Json.num 1)])).toList =
      keptLines "hello world\nautojp_state:old\nnotes" ++
        [STATE_MARKER ++ dumpsChars (Json.obj [("a", Json.num 1)])] ∧
     read_state_from_description (write_state_to_description
        "hello world\nautojp_state:old\nnotes" (Json.obj [("a", Json.num 1)])) =
      Json.obj [("a", Json.num 1)]) :=
  ⟨by decide, by decide,
    C7_amended "hello world\nautojp_state:old\nnotes" (Json.obj [("a", Json.num 1)])
      (by decide) (by decide)⟩
